import Mathlib

/-!
# A verification development for the openapi-db core

This file gives a shallow embedding, in Lean, of the core of the openapi-db
library (expression parser/evaluator, PostgreSQL and MongoDB adapters'
interpolation and validation, route compiler/matcher, response shaper and the
router request lifecycle), translated from the TypeScript sources
(`helpers.ts` / `frameworks/express.ts`, `template.ts`, `matcher.ts`,
`adapters/postgres/index.ts`, `adapters/mongodb/index.ts`, `response.ts`,
`router.ts`), together with theorems settling the specification's claims.

JavaScript strings are embedded as `List Char`.  JavaScript runtime values
are embedded as the inductive type `Value` below.  JavaScript numbers are
modelled as exact rationals (`Rat`); IEEE-754 rounding is not modelled — no
claim in this development depends on it.  `Date` objects are modelled as an
opaque payload (`vDate`); their locale-dependent string rendering is not
modelled — no claim depends on it either.
-/

namespace OpenapiDb

/-- Embedding of JavaScript runtime values as they flow through the library:
`null`, `undefined`, booleans, numbers, strings, arrays, plain objects
(insertion-ordered association lists) and `Date` objects. -/
inductive Value : Type where
  | vNull : Value
  | vUndefined : Value
  | vBool : Bool → Value
  | vNum : Rat → Value
  | vStr : List Char → Value
  | vArr : List Value → Value
  | vObj : List (List Char × Value) → Value
  | vDate : Nat → Value

open Value

/-- JS nullish test (`x === null || x === undefined`), the condition on which
`??` (nullish coalescing) falls through to its right operand. -/
def isNullish : Value → Bool
  | vNull => true
  | vUndefined => true
  | _ => false

/-- JS nullish-coalescing operator `a ?? b`. -/
def nullishCoalesce (a b : Value) : Value :=
  if isNullish a then b else a

/-- JS falsiness (`!x`): `null`, `undefined`, `false`, `0`, `""` are falsy. -/
def jsFalsy : Value → Bool
  | vNull => true
  | vUndefined => true
  | vBool b => !b
  | vNum q => q == 0
  | vStr s => s.isEmpty
  | _ => false

/-- `typeof x === "object"` in JS: `null`, arrays, plain objects and `Date`s
all have typeof `"object"`. -/
def typeofIsObject : Value → Bool
  | vNull => true
  | vArr _ => true
  | vObj _ => true
  | vDate _ => true
  | _ => false

/-- `Array.isArray`. -/
def isArrayV : Value → Bool
  | vArr _ => true
  | _ => false

/-- First-match association-list lookup (JS objects hold at most one binding
per key, so insertion-ordered association lists with unique keys model them;
lookup takes the first match). -/
def assocFind (k : List Char) : List (List Char × Value) → Option Value
  | [] => none
  | (k', v) :: rest => if k' = k then some v else assocFind k rest

/-- Decimal digits of a natural number. -/
def natToChars (n : Nat) : List Char :=
  Nat.toDigits 10 n

/-- Parse a canonical decimal numeral ("0", or digits with no leading zero),
the only string keys under which JS array/string indexing hits an element. -/
def canonicalNat? (s : List Char) : Option Nat :=
  if s.all Char.isDigit ∧ s ≠ [] ∧ (s.head? ≠ some '0' ∨ s = ['0']) then
    some (s.foldl (fun acc c => acc * 10 + (c.toNat - '0'.toNat)) 0)
  else none

/-- JS property access `value[segment]` for a string `segment`, on any
non-nullish value: objects yield the bound value or `undefined`; arrays yield
an element under a canonical index key and their length under `"length"`;
strings behave like arrays of 1-character strings; every other access
(including method names, which resolve to functions we do not model) yields
`undefined`. -/
def getProp : Value → List Char → Value
  | vObj fields, k => (assocFind k fields).getD vUndefined
  | vArr xs, k =>
    if k = ('l' :: 'e' :: 'n' :: 'g' :: 't' :: 'h' :: []) then vNum xs.length
    else match canonicalNat? k with
      | some i => (xs.get? i).getD vUndefined
      | none => vUndefined
  | vStr s, k =>
    if k = ('l' :: 'e' :: 'n' :: 'g' :: 't' :: 'h' :: []) then vNum s.length
    else match canonicalNat? k with
      | some i => match s.get? i with
        | some c => vStr [c]
        | none => vUndefined
      | none => vUndefined
  | _, _ => vUndefined

/-- Whitespace as trimmed by `String.prototype.trim` (modelled by the ASCII
whitespace characters; the claims only exercise these). -/
def isWs (c : Char) : Bool := c.isWhitespace

/-- JS `s.trim()`. -/
def trimChars (cs : List Char) : List Char :=
  ((cs.dropWhile isWs).reverse.dropWhile isWs).reverse

/-- JS `s.split(sep)` for a single-character separator: always returns at
least one (possibly empty) piece; `"".split(sep) = [""]`. -/
def splitOnChar (sep : Char) : List Char → List (List Char)
  | [] => [[]]
  | c :: rest =>
    match splitOnChar sep rest with
    | g :: gs => if c = sep then [] :: g :: gs else (c :: g) :: gs
    | [] => [[c]]

/-- `splitOnChar` never returns the empty list. -/
theorem splitOnChar_ne_nil (sep : Char) (cs : List Char) :
    splitOnChar sep cs ≠ [] := by
  cases cs with
  | nil => simp [splitOnChar]
  | cons c rest =>
    simp only [splitOnChar]
    cases h : splitOnChar sep rest with
    | nil => simp
    | cons g gs => by_cases hc : c = sep <;> simp [hc]

/-- Interleave a separator between pieces (JS `Array.prototype.join`). -/
def joinWith (sep : List Char) : List (List Char) → List Char
  | [] => []
  | [p] => p
  | p :: rest => p ++ sep ++ joinWith sep rest

/-- JS word character (`\w` in a regular expression): `[A-Za-z0-9_]`. -/
def isWordChar (c : Char) : Bool :=
  ('a' ≤ c ∧ c ≤ 'z') ∨ ('A' ≤ c ∧ c ≤ 'Z') ∨ c.isDigit ∨ c = '_'

/-- ASCII lower-casing, modelling `String.prototype.toLowerCase` on the
ASCII method names the router compares (full Unicode case mapping is not
modelled; HTTP method names are ASCII). -/
def jsToLower (cs : List Char) : List Char :=
  cs.map Char.toLower

/-- Decimal digits of an integer. -/
def intToChars (i : Int) : List Char :=
  if i < 0 then '-' :: natToChars i.natAbs else natToChars i.natAbs

/-- Decimal expansion of the fractional part `num/den` (with `num < den`),
emitting digits until the remainder vanishes, up to the given fuel.  The
numbers produced by the expression language are decimal literals, whose
denominators are powers of ten, so the expansion below is exact for them. -/
def fracDigits : Nat → Nat → Nat → List Char
  | _, _, 0 => []
  | num, den, fuel + 1 =>
    if num = 0 then []
    else
      let num' := num * 10
      Nat.digitChar (num' / den) :: fracDigits (num' % den) den fuel

/-- Rendering of a JS number to its string form (exact for integers; decimal
expansion for the fractional literals the expression language can produce). -/
def numToChars (q : Rat) : List Char :=
  if q.den = 1 then intToChars q.num
  else
    (if q < 0 then ['-'] else []) ++
      natToChars (q.num.natAbs / q.den) ++ '.' ::
      fracDigits (q.num.natAbs % q.den) q.den 30

mutual

/-- JS `String(v)` coercion: strings unchanged; `null`/`undefined`/booleans
by name; numbers in decimal; arrays joined with `","` (nullish elements
rendering as the empty string, as `Array.prototype.join` does); plain objects
as `"[object Object]"`.  `Date` rendering is locale-dependent in JS and is
modelled by an opaque marker (no claim depends on it). -/
def jsToString : Value → List Char
  | vNull => 'n' :: 'u' :: 'l' :: 'l' :: []
  | vUndefined => 'u' :: 'n' :: 'd' :: 'e' :: 'f' :: 'i' :: 'n' :: 'e' :: 'd' :: []
  | vBool true => 't' :: 'r' :: 'u' :: 'e' :: []
  | vBool false => 'f' :: 'a' :: 'l' :: 's' :: 'e' :: []
  | vNum q => numToChars q
  | vStr s => s
  | vArr xs => joinWith [','] (jsToStringElems xs)
  | vObj _ =>
    '[' :: 'o' :: 'b' :: 'j' :: 'e' :: 'c' :: 't' :: ' ' ::
      'O' :: 'b' :: 'j' :: 'e' :: 'c' :: 't' :: ']' :: []
  | vDate _ => '[' :: 'D' :: 'a' :: 't' :: 'e' :: ']' :: []

/-- Element rendering for `Array.prototype.join`: nullish elements render
as the empty string. -/
def jsToStringElems : List Value → List (List Char)
  | [] => []
  | v :: vs =>
    (match v with
     | vNull => []
     | vUndefined => []
     | w => jsToString w) :: jsToStringElems vs

end

/-- The per-request interpolation context (`Context` in `adapters/types.ts`):
the four fixed namespaces.  `auth` is `vNull` until an auth resolver supplies
a value. -/
structure Context where
  path : Value
  query : Value
  body : Value
  auth : Value

/-- Navigation step of `resolveVariable`: walk a property-access chain left
to right; any `null`/`undefined` intermediate short-circuits to `undefined`
(the check happens before each access, as in the source loop). -/
def navigate : Value → List (List Char) → Value
  | v, [] => v
  | v, seg :: rest =>
    if isNullish v then vUndefined else navigate (getProp v seg) rest

/-- The namespace selected by the first dot-separated segment of a variable
reference (`switch (source)` in `resolveVariable`); `none` models the
`default: return undefined` branch. -/
def sourceValue (ctx : Context) (source : List Char) : Option Value :=
  if source = "path".data then some ctx.path
  else if source = "query".data then some ctx.query
  else if source = "body".data then some ctx.body
  else if source = "auth".data then some ctx.auth
  else none

/-- `resolveVariable(ref, context)` from `helpers.ts`: trim, split on `"."`,
select the namespace from the first segment, walk the remaining segments,
and finally split a comma-containing string from the `query` namespace into
an array of strings. -/
def resolveVariable (ref : List Char) (ctx : Context) : Value :=
  let parts := splitOnChar '.' (trimChars ref)
  let source := parts.headD []
  let segs := parts.drop 1
  match sourceValue ctx source with
  | none => vUndefined
  | some v0 =>
    match navigate v0 segs with
    | vStr s =>
      if source = "query".data ∧ s.contains ',' then
        vArr ((splitOnChar ',' s).map vStr)
      else vStr s
    | v => v

/-- The argument-splitting scan shared verbatim by `parseArgs` (`helpers.ts`)
and `parseArguments` (`template.ts`): split on top-level commas, tracking
parenthesis depth and single-quoted string state (a quote preceded by a
backslash does not close the string); the trailing piece is flushed at end of
input only when not inside an unterminated string literal; pieces are trimmed
and empty pieces are skipped. -/
def splitTopArgsAux :
    List Char → Option Char → List Char → Int → Bool → List (List Char) →
    List (List Char)
  | [], _, cur, _, inString, acc =>
    if inString then acc.reverse
    else
      let argText := trimChars cur.reverse
      (if argText = [] then acc else argText :: acc).reverse
  | c :: rest, prev, cur, depth, inString, acc =>
    if inString then
      splitTopArgsAux rest (some c) (c :: cur) depth
        (!(c = '\'' ∧ prev ≠ some '\\')) acc
    else if c = '\'' then
      splitTopArgsAux rest (some c) (c :: cur) depth true acc
    else if c = '(' then
      splitTopArgsAux rest (some c) (c :: cur) (depth + 1) false acc
    else if c = ')' then
      splitTopArgsAux rest (some c) (c :: cur) (depth - 1) false acc
    else if c = ',' ∧ depth = 0 then
      let argText := trimChars cur.reverse
      splitTopArgsAux rest (some c) [] 0 false
        (if argText = [] then acc else argText :: acc)
    else
      splitTopArgsAux rest (some c) (c :: cur) depth false acc

/-- Top-level argument texts of a function call's argument string. -/
def splitTopArgs (argsStr : List Char) : List (List Char) :=
  splitTopArgsAux argsStr none [] 0 false []

/-- First index of a character (JS `indexOf` for a 1-character needle). -/
def indexOfChar (c : Char) : List Char → Option Nat
  | [] => none
  | x :: rest => if x = c then some 0 else (indexOfChar c rest).map (· + 1)

/-- Function-call decomposition done at the top of `evaluateFunction`:
`trimmed.indexOf("(")` must exist and the trimmed text must end in `")"`;
yields the (trimmed) name and the argument substring strictly between the
outer parentheses.  `none` models the "Invalid function expression" throw. -/
def splitFnCall (expr : List Char) : Option (List Char × List Char) :=
  let trimmed := trimChars expr
  match indexOfChar '(' trimmed with
  | none => none
  | some p =>
    if trimmed.getLast? = some ')' then
      some (trimChars (trimmed.take p), (trimmed.drop (p + 1)).dropLast)
    else none

/-- Errors thrown by the expression evaluator (`OpenApiDbError` with code
`UNKNOWN_FUNCTION` in both cases).  `outOfFuel` is an artefact of the fueled
embedding of the mutual string recursion; it is never produced when the fuel
exceeds the expression length, since every nested evaluation shrinks the
expression by at least one character. -/
inductive EvalErr : Type where
  | unknownFunction (name : List Char)
  | invalidFunction (expr : List Char)
  | outOfFuel

/-- The impure built-ins, made explicit: `now()` returns `new Date()` and
`uuid()` a random v4 UUID; the embedding threads their per-request results
as parameters. -/
structure Env where
  nowVal : Nat
  uuidVal : List Char

/-- JS `args[i]`: out-of-range indexing yields `undefined`. -/
def jsIndex (l : List Value) (i : Nat) : Value :=
  (l.get? i).getD vUndefined

/-- String-literal test of `evaluateArg`: starts and ends with a single
quote (a 1-character `"'"` passes both checks, as in JS). -/
def isStrLit (cs : List Char) : Bool :=
  cs.head? = some '\'' ∧ cs.getLast? = some '\''

/-- `trimmed.slice(1, -1)`. -/
def stripEnds (cs : List Char) : List Char :=
  (cs.drop 1).dropLast

/-- `replace(/\\'/g, "'")`: left-to-right, non-overlapping unescaping of
backslash-quote pairs. -/
def unescapeQuotes : List Char → List Char
  | '\\' :: '\'' :: rest => '\'' :: unescapeQuotes rest
  | c :: rest => c :: unescapeQuotes rest
  | [] => []

/-- The numeric-literal test `/^-?\d+(\.\d+)?$/`. -/
def isNumLit (cs : List Char) : Bool :=
  let body := match cs with
    | '-' :: rest => rest
    | _ => cs
  let ip := body.takeWhile Char.isDigit
  let rest := body.dropWhile Char.isDigit
  ip ≠ [] ∧ (rest = [] ∨
    (rest.head? = some '.' ∧ rest.drop 1 ≠ [] ∧ (rest.drop 1).all Char.isDigit))

/-- Numeric value of a digit string. -/
def digitsToNat (ds : List Char) : Nat :=
  ds.foldl (fun a c => a * 10 + (c.toNat - '0'.toNat)) 0

/-- `parseFloat` on a `/^-?\d+(\.\d+)?$/` literal, modelled exactly (IEEE
rounding not modelled; no claim depends on it). -/
def parseNumLit (cs : List Char) : Rat :=
  let (neg, body) := match cs with
    | '-' :: rest => (true, rest)
    | _ => (false, cs)
  let ip := body.takeWhile Char.isDigit
  let rest := body.dropWhile Char.isDigit
  let fp := rest.drop 1
  let q : Rat := (digitsToNat ip : Rat) + (digitsToNat fp : Rat) / ((10 : Rat) ^ fp.length)
  if neg then -q else q

mutual

/-- `evaluateFunction(expr, context)` from `helpers.ts`: decompose into name
and argument string, evaluate all arguments (via the inlined `parseArgs`
loop, see `parseArgsF`), then dispatch on the name: `default` is
`args[0] ?? args[1]`; `now()`/`uuid()` return the per-request impure results;
anything else throws `UNKNOWN_FUNCTION`.  The first argument is recursion
fuel (see `EvalErr.outOfFuel`). -/
def evaluateFunctionF : Nat → List Char → Context → Env → Except EvalErr Value
  | 0, _, _, _ => .error .outOfFuel
  | fuel + 1, expr, ctx, env =>
    match splitFnCall expr with
    | none => .error (.invalidFunction expr)
    | some (name, argsStr) => do
      let args ← evalArgsListF fuel (splitTopArgs argsStr) ctx env
      if name = "default".data then
        pure (nullishCoalesce (jsIndex args 0) (jsIndex args 1))
      else if name = "now".data then pure (vDate env.nowVal)
      else if name = "uuid".data then pure (vStr env.uuidVal)
      else .error (.unknownFunction name)
termination_by fuel _ _ _ => (fuel, 2, 0)

/-- Evaluation of the split argument texts in order (the `args.push(...)`
loop of `parseArgs`). -/
def evalArgsListF : Nat → List (List Char) → Context → Env → Except EvalErr (List Value)
  | _, [], _, _ => pure []
  | fuel, a :: rest, ctx, env => do
    let v ← evaluateArgF fuel a ctx env
    let vs ← evalArgsListF fuel rest ctx env
    pure (v :: vs)
termination_by fuel l _ _ => (fuel, 1, l.length)

/-- `evaluateArg(arg, context)` from `helpers.ts`: string literal, numeric
literal, `null`, nested function call (contains `"("` and ends in `")"`), or
variable reference, checked in that order. -/
def evaluateArgF : Nat → List Char → Context → Env → Except EvalErr Value
  | 0, _, _, _ => .error .outOfFuel
  | fuel + 1, arg, ctx, env =>
    let trimmed := trimChars arg
    if isStrLit trimmed then pure (vStr (unescapeQuotes (stripEnds trimmed)))
    else if isNumLit trimmed then pure (vNum (parseNumLit trimmed))
    else if trimmed = "null".data then pure vNull
    else if trimmed.contains '(' ∧ trimmed.getLast? = some ')' then
      evaluateFunctionF fuel trimmed ctx env
    else pure (resolveVariable trimmed ctx)
termination_by fuel _ _ _ => (fuel, 0, 0)

end

/-- `parseArgs(argsStr, context)` from `helpers.ts`: split into top-level
argument texts, then evaluate each (skipping empty pieces, which the split
already removed). -/
def parseArgsF (fuel : Nat) (argsStr : List Char) (ctx : Context) (env : Env) :
    Except EvalErr (List Value) :=
  evalArgsListF fuel (splitTopArgs argsStr) ctx env

/-! ## Template scanning

`parseTemplate` (`helpers.ts`) and `tokenize` (`template.ts`) share the same
scan: find `"${{"`, then find the matching `"}}"` via `findClosingDelimiter`
(depth counting over `"{{"`/`"}}"`, skipping single-quoted literals with
backslash escapes).  The position-based `while` loops of the source are
embedded as structural recursions over the remaining suffix, returning
offsets relative to the suffix's start; the absolute positions of the source
are recovered by adding the running base offset. -/

/-- Inner loop of `findClosingDelimiter`: number of characters of the string
literal body consumed before the closing quote (or before the end of input
when the literal is unterminated); an escaped quote (backslash followed by
any character, when not at the end) consumes two characters. -/
def skipLitAux : List Char → Nat
  | [] => 0
  | '\'' :: _ => 0
  | '\\' :: _ :: rest => 2 + skipLitAux rest
  | _ :: rest => 1 + skipLitAux rest

/-- `findClosingDelimiter(template, start)` from `helpers.ts`/`template.ts`,
on the suffix starting at `start` with the given nesting depth (the source
starts at depth 1): offset of the `"}}"` that brings the depth to zero, or
`none` when the input ends first (the source's `-1`). -/
def findCloseAux : List Char → Nat → Option Nat
  | '}' :: '}' :: rest, depth =>
    if depth = 1 then some 0
    else (findCloseAux rest (depth - 1)).map (· + 2)
  | '{' :: '{' :: rest, depth => (findCloseAux rest (depth + 1)).map (· + 2)
  | '\'' :: rest, depth =>
    let k := skipLitAux rest
    (findCloseAux (rest.drop (k + 1)) depth).map (· + (k + 2))
  | _ :: rest, depth => (findCloseAux rest depth).map (· + 1)
  | [], _ => none
termination_by cs _ => cs.length
decreasing_by
  all_goals simp_wf
  all_goals omega

/-- `template.indexOf("${{", pos)` on the suffix from `pos`: offset of the
first occurrence of the open delimiter. -/
def indexOfOpen : List Char → Option Nat
  | '$' :: '{' :: '{' :: _ => some 0
  | _ :: rest => (indexOfOpen rest).map (· + 1)
  | [] => none

/-- An occurrence of the open delimiter lies at least 3 characters before
the end. -/
theorem indexOfOpen_le {cs : List Char} {i : Nat} (h : indexOfOpen cs = some i) :
    i + 3 ≤ cs.length := by
  induction cs using indexOfOpen.induct generalizing i with
  | case1 r =>
    simp [indexOfOpen] at h
    simp [← h, List.length_cons]
  | case2 c rest hne ih =>
    rw [indexOfOpen] at h
    · cases hrest : indexOfOpen rest with
      | none => rw [hrest] at h; simp at h
      | some j =>
        rw [hrest] at h
        simp at h
        have := ih hrest
        simp [List.length_cons]
        omega
    · exact hne
  | case3 => simp [indexOfOpen] at h

/-- A found closing delimiter leaves at least the two closing characters
inside the scanned suffix. -/
theorem findCloseAux_le {cs : List Char} {d c : Nat} (h : findCloseAux cs d = some c) :
    c + 2 ≤ cs.length := by
  induction cs, d using findCloseAux.induct generalizing c with
  | case1 rest =>
    rw [findCloseAux] at h
    simp at h
    simp [← h, List.length_cons]
  | case2 rest depth hne ih =>
    rw [findCloseAux, if_neg hne] at h
    simp at h
    obtain ⟨a, ha, hc⟩ := h
    have := ih ha
    simp [List.length_cons]
    omega
  | case3 rest depth ih =>
    rw [findCloseAux] at h
    simp at h
    obtain ⟨a, ha, hc⟩ := h
    have := ih ha
    simp [List.length_cons]
    omega
  | case4 rest depth k =>
    rename_i ih
    rw [findCloseAux] at h
    simp at h
    obtain ⟨a, ha, hc⟩ := h
    have := ih ha
    simp [List.length_drop] at this
    simp [List.length_cons]
    omega
  | case5 head rest depth hne1 hne2 hne3 ih =>
    rw [findCloseAux] at h
    · simp at h
      obtain ⟨a, ha, hc⟩ := h
      have := ih ha
      simp [List.length_cons]
      omega
    · exact hne1
    · exact hne2
    · exact hne3
  | case6 d => simp [findCloseAux] at h

/-- One located expression reference (`{ match, inner, start, end }` in the
source; `end` is `stop` here since `end` is a Lean keyword).  Offsets are
absolute positions into the original template. -/
structure Ref : Type where
  matchText : List Char
  inner : List Char
  start : Nat
  stop : Nat

/-- The scan loop of `parseTemplate` (`helpers.ts`): `cs` is the suffix of
the template from absolute position `base`; each iteration finds the next
open delimiter, finds its closing delimiter (an unterminated expression
breaks the loop, reporting nothing for it), records the reference with its
trimmed inner text and absolute offsets, and continues after the closing
delimiter. -/
def parseAux (cs : List Char) (base : Nat) : List Ref :=
  match h : indexOfOpen cs with
  | none => []
  | some i =>
    match h2 : findCloseAux (cs.drop (i + 3)) 1 with
    | none => []
    | some c =>
      { matchText := (cs.drop i).take (c + 5)
        inner := trimChars ((cs.drop (i + 3)).take c)
        start := base + i
        stop := base + i + 3 + c + 2 }
        :: parseAux ((cs.drop (i + 3)).drop (c + 2)) (base + i + 3 + c + 2)
termination_by cs.length
decreasing_by
  simp_wf
  have h1 := indexOfOpen_le h
  have h3 := findCloseAux_le h2
  simp [List.length_drop] at h3
  omega

/-- `parseTemplate(template)` from `helpers.ts`: every `${{ }}` reference,
in left-to-right order, with positions. -/
def parseTemplate (template : List Char) : List Ref :=
  parseAux template 0

/-! ## The token tree of `template.ts` -/

/-- Token tree built by `tokenize`/`parseExpression` in `template.ts`.
`tLiteral` payloads are the strings, numbers and `null` the argument
tokenizer produces. -/
inductive Token : Type where
  | tText (value : List Char)
  | tVariable (source : List Char) (path : List (List Char))
  | tFunction (name : List Char) (args : List (List Token))
  | tLiteral (value : Value)

/-- The four namespaces recognised by `parseVariable`. -/
def sourcesList : List (List Char) :=
  ["path".data, "query".data, "body".data, "auth".data]

/-- `parseVariable(expr)` from `template.ts`: split on `"."`; an unknown
first segment falls back to a text token, as does a bare namespace other
than `body` (a bare `body` denotes the entire request body). -/
def parseVariable (expr : List Char) : Token :=
  let parts := splitOnChar '.' expr
  let source := parts.headD []
  if ¬ sourcesList.contains source then Token.tText expr
  else
    let path := parts.drop 1
    if source ≠ "body".data ∧ path = [] then Token.tText expr
    else Token.tVariable source path

mutual

/-- `parseExpression(expr)` from `template.ts`: a function call when the
trimmed text contains `"("` and ends in `")"` (the decomposition is the one
shared with `evaluateFunction`, see `splitFnCall`), otherwise a variable.
Fueled like the evaluator; `none` (fuel exhaustion) is unreachable for fuel
exceeding the expression length, since each nested argument is strictly
shorter. -/
def parseExpressionF : Nat → List Char → Option Token
  | 0, _ => none
  | fuel + 1, expr =>
    match splitFnCall expr with
    | some (name, argsStr) =>
      (argTokenListF fuel (splitTopArgs argsStr)).map (Token.tFunction name)
    | none => some (parseVariable (trimChars expr))
termination_by fuel _ => (fuel, 1, 0)

/-- Tokenization of the split argument texts in order (the `args.push`
loop of `parseArguments`). -/
def argTokenListF : Nat → List (List Char) → Option (List (List Token))
  | _, [] => some []
  | fuel, a :: rest => do
    let t ← tokenizeArgumentF fuel a
    let ts ← argTokenListF fuel rest
    pure (t :: ts)
termination_by fuel l => (fuel, 0, l.length + 1)

/-- `tokenizeArgument(arg)` from `template.ts`: string literal, number
literal, `null`, else a parsed expression, each as a one-token list. -/
def tokenizeArgumentF : Nat → List Char → Option (List Token)
  | 0, _ => none
  | fuel + 1, arg =>
    let trimmed := trimChars arg
    if isStrLit trimmed then
      some [Token.tLiteral (vStr (unescapeQuotes (stripEnds trimmed)))]
    else if isNumLit trimmed then some [Token.tLiteral (vNum (parseNumLit trimmed))]
    else if trimmed = "null".data then some [Token.tLiteral vNull]
    else (parseExpressionF fuel trimmed).map ([·])
termination_by fuel _ => (fuel, 0, 0)

end

/-- The scan loop of `tokenize` (`template.ts`), structured like `parseAux`:
text chunks become `tText` tokens, each delimited expression is parsed into
a token, and an unterminated open delimiter turns the whole remainder into
text.  The result is `none` only on (unreachable) parser fuel exhaustion. -/
def tokenizeAux (cs : List Char) : Option (List Token) :=
  match h : indexOfOpen cs with
  | none => some (if cs.isEmpty then [] else [Token.tText cs])
  | some i =>
    match h2 : findCloseAux (cs.drop (i + 3)) 1 with
    | none =>
      some ((if 0 < i then [Token.tText (cs.take i)] else []) ++
        [Token.tText (cs.drop i)])
    | some c => do
      let tok ← parseExpressionF
        ((trimChars ((cs.drop (i + 3)).take c)).length + 1)
        (trimChars ((cs.drop (i + 3)).take c))
      let rest ← tokenizeAux ((cs.drop (i + 3)).drop (c + 2))
      pure ((if 0 < i then [Token.tText (cs.take i)] else []) ++ tok :: rest)
termination_by cs.length
decreasing_by
  simp_wf
  have h1 := indexOfOpen_le h
  have h3 := findCloseAux_le h2
  simp [List.length_drop] at h3
  omega

/-- `tokenize(template)` from `template.ts`. -/
def tokenize (template : List Char) : Option (List Token) :=
  tokenizeAux template

/-! ## PostgreSQL adapter (`adapters/postgres/index.ts`) -/

/-- Result of an adapter's `validateQuery`. -/
inductive Validation : Type where
  | valid
  | invalid (error : List Char)

/-- `PgAdapter.validateQuery`: the query template must be a string. -/
def pgValidateQuery (query : Value) : Validation :=
  match query with
  | vStr _ => .valid
  | _ => .invalid "PostgreSQL adapter expects a string query".data

/-- The `/^\w+\(/` heuristic classifying a reference's inner text as a
function call: one or more word characters immediately followed by `"("`. -/
def isFunctionRef (inner : List Char) : Bool :=
  let run := inner.takeWhile isWordChar
  ¬ run.isEmpty ∧ (inner.drop run.length).head? = some '('

/-- Evaluation of one reference as the adapters do: `evaluateFunction` when
the `/^\w+\(/` heuristic fires, else `resolveVariable`.  The evaluator fuel
`inner.length + 1` cannot exhaust, as each nested evaluation shrinks the
text. -/
def evalRefValue (inner : List Char) (ctx : Context) (env : Env) :
    Except EvalErr Value :=
  if isFunctionRef inner then evaluateFunctionF (inner.length + 1) inner ctx env
  else pure (resolveVariable inner ctx)

/-- The interpolated artifact of the PostgreSQL adapter. -/
structure InterpolatedSqlQuery : Type where
  sql : List Char
  values : List Value

/-- `$N` placeholder text. -/
def placeholderFor (n : Nat) : List Char :=
  '$' :: natToChars n

/-- The splice loop of `PgAdapter.interpolate`: for each reference in order,
evaluate it, append the value, and replace the `${{ }}` span (shifted by the
running offset) with the positional placeholder `$N` where `N` is the number
of values accumulated so far.  The offset bookkeeping follows the source;
the JS number `offset` may be negative, so it is an `Int` here, and the
`toNat` clamps never fire on the in-bounds offsets produced by
`parseTemplate` (as the interpolation theorems prove). -/
def pgLoop (ctx : Context) (env : Env) :
    List Ref → List Char → List Value → Int → Except EvalErr (List Char × List Value)
  | [], sql, values, _ => .ok (sql, values)
  | r :: rs, sql, values, offset => do
    let v ← evalRefValue r.inner ctx env
    let values' := values ++ [v]
    let ph := placeholderFor values'.length
    let sql' := sql.take ((r.start + offset).toNat) ++ ph ++
      sql.drop ((r.stop + offset).toNat)
    pgLoop ctx env rs sql' values' (offset + ph.length - ((r.stop : Int) - (r.start : Int)))

/-- `PgAdapter.interpolate(query, context, helpers)`: locate all references
via `parseTemplate`, then splice placeholders left to right. -/
def pgInterpolate (template : List Char) (ctx : Context) (env : Env) :
    Except EvalErr InterpolatedSqlQuery :=
  (pgLoop ctx env (parseTemplate template) template [] 0).map fun p =>
    { sql := p.1, values := p.2 }

/-! ## MongoDB adapter (`adapters/mongodb/index.ts`) -/

/-- `query === null`. -/
def isNullV : Value → Bool
  | vNull => true
  | _ => false

/-- The JS `in` operator on the values that pass the adapter's typeof
check: key presence on objects; canonical indices and `"length"` on
arrays. -/
def hasKey (q : Value) (k : List Char) : Bool :=
  match q with
  | vObj fields => fields.any (fun f => f.1 = k)
  | vArr xs =>
    if k = ('l' :: 'e' :: 'n' :: 'g' :: 't' :: 'h' :: []) then true
    else match canonicalNat? k with
      | some i => decide (i < xs.length)
      | none => false
  | _ => false

/-- `SUPPORTED_OPERATIONS` from the MongoDB adapter. -/
def SUPPORTED_OPERATIONS : List (List Char) :=
  ["find".data, "findOne".data, "insertOne".data, "updateOne".data,
   "replaceOne".data, "deleteOne".data, "aggregate".data, "count".data,
   "findOneAndUpdate".data, "findOneAndDelete".data, "bulkWrite".data]

/-- The `!query.X || typeof query.X !== "object"` test used by
`validateOperationFields` for each required sub-object. -/
def missingObjectField (q : Value) (field : List Char) : Bool :=
  jsFalsy (getProp q field) ∨ ¬ typeofIsObject (getProp q field)

/-- `MongoAdapter.validateOperationFields`: required sub-fields per
operation; operations without required fields (`find`, `findOne`, `count`,
`aggregate`) fall through to valid. -/
def validateOperationFields (operation : List Char) (q : Value) : Validation :=
  if operation = "insertOne".data then
    if missingObjectField q "document".data then
      .invalid ("insertOne requires a 'document' object".data)
    else .valid
  else if operation = "updateOne".data ∨ operation = "findOneAndUpdate".data then
    if missingObjectField q "filter".data then
      .invalid (operation ++ " requires a 'filter' object".data)
    else if missingObjectField q "update".data then
      .invalid (operation ++ " requires an 'update' object".data)
    else .valid
  else if operation = "replaceOne".data then
    if missingObjectField q "filter".data then
      .invalid ("replaceOne requires a 'filter' object".data)
    else if missingObjectField q "replacement".data then
      .invalid ("replaceOne requires a 'replacement' object".data)
    else .valid
  else if operation = "deleteOne".data ∨ operation = "findOneAndDelete".data then
    if missingObjectField q "filter".data then
      .invalid (operation ++ " requires a 'filter' object".data)
    else .valid
  else if operation = "bulkWrite".data then
    if ¬ isArrayV (getProp q "operations".data) then
      .invalid ("bulkWrite requires an 'operations' array".data)
    else .valid
  else .valid

/-- `MongoAdapter.validateQuery`: must be a non-null object; must have a
non-empty string `collection`; a query with a `pipeline` key is valid iff
the pipeline is an array (the `operation` field is not examined on this
branch); otherwise `operation` must be a string naming a supported
operation whose required sub-fields are present. -/
def mongoValidateQuery (query : Value) : Validation :=
  if isNullV query ∨ ¬ typeofIsObject query then
    .invalid "MongoDB adapter expects an object query".data
  else
    let collectionOk : Bool := match getProp query "collection".data with
      | vStr s => !s.isEmpty
      | _ => false
    if ¬ collectionOk then
      .invalid "MongoDB query must have a 'collection' field (string)".data
    else if hasKey query "pipeline".data then
      if ¬ isArrayV (getProp query "pipeline".data) then
        .invalid "MongoDB pipeline must be an array".data
      else .valid
    else
      match getProp query "operation".data with
      | vStr op =>
        if ¬ SUPPORTED_OPERATIONS.contains op then
          .invalid ("Unknown MongoDB operation: ".data ++ op ++
            ". Supported: ".data ++ joinWith ", ".data SUPPORTED_OPERATIONS)
        else validateOperationFields op query
      | _ =>
        .invalid "MongoDB query must have either 'operation' or 'pipeline' field".data

/-- The string-building splice loop of `MongoAdapter.interpolateString`
(the branch for expressions embedded in surrounding text): each reference's
value is coerced by `String(value ?? "")` and spliced into the text with
the same offset bookkeeping as the PostgreSQL adapter. -/
def mongoStrLoop (ctx : Context) (env : Env) :
    List Ref → List Char → Int → Except EvalErr (List Char)
  | [], result, _ => .ok result
  | r :: rs, result, offset => do
    let v ← evalRefValue r.inner ctx env
    let replacement := jsToString (nullishCoalesce v (vStr []))
    let result' := result.take ((r.start + offset).toNat) ++ replacement ++
      result.drop ((r.stop + offset).toNat)
    mongoStrLoop ctx env rs result'
      (offset + replacement.length - ((r.stop : Int) - (r.start : Int)))

/-- `MongoAdapter.interpolateString(template, context, helpers)`: no
references — the string is returned unchanged; a single reference spanning
the whole string — the resolved value is returned with its native type
preserved; otherwise every reference is stringified and spliced into the
surrounding text. -/
def mongoInterpolateString (template : List Char) (ctx : Context) (env : Env) :
    Except EvalErr Value :=
  let refs := parseTemplate template
  match refs with
  | [] => .ok (vStr template)
  | firstRef :: rest =>
    if rest.isEmpty ∧ firstRef.start = 0 ∧ firstRef.stop = template.length then
      evalRefValue firstRef.inner ctx env
    else
      (mongoStrLoop ctx env refs template 0).map vStr

/-! ## Percent decoding (`decodeURIComponent` and `URLSearchParams`)

The router depends on two pieces of the JS standard library for decoding:
`decodeURIComponent` (which throws `URIError` on malformed input, modelled
as `none`) and `URLSearchParams` (whose form decoding is lenient).  Both
are modelled here: `%XX` runs are decoded as UTF-8 byte sequences. -/

def isHexDigit (c : Char) : Bool :=
  c.isDigit ∨ ('a' ≤ c ∧ c ≤ 'f') ∨ ('A' ≤ c ∧ c ≤ 'F')

def hexVal (c : Char) : Nat :=
  if c.isDigit then c.toNat - '0'.toNat
  else if 'a' ≤ c then c.toNat - 'a'.toNat + 10
  else c.toNat - 'A'.toNat + 10

/-- UTF-8 continuation byte. -/
def isCont (b : Nat) : Bool := 0x80 ≤ b ∧ b ≤ 0xBF

/-- Decode one UTF-8 scalar from a lead byte and the following bytes,
yielding the character and how many of the following bytes it consumed;
strict per RFC 3629 (overlong encodings and surrogates rejected). -/
def utf8Step (b : Nat) (rest : List Nat) : Option (Char × Nat) :=
  if b < 0x80 then some (Char.ofNat b, 0)
  else if 0xC2 ≤ b ∧ b ≤ 0xDF then
    match rest with
    | b2 :: _ =>
      if isCont b2 then some (Char.ofNat ((b - 0xC0) * 64 + (b2 - 0x80)), 1)
      else none
    | [] => none
  else if 0xE0 ≤ b ∧ b ≤ 0xEF then
    match rest with
    | b2 :: b3 :: _ =>
      let lo2 := if b = 0xE0 then 0xA0 else 0x80
      let hi2 := if b = 0xED then 0x9F else 0xBF
      if lo2 ≤ b2 ∧ b2 ≤ hi2 ∧ isCont b3 then
        some (Char.ofNat ((b - 0xE0) * 4096 + (b2 - 0x80) * 64 + (b3 - 0x80)), 2)
      else none
    | _ => none
  else if 0xF0 ≤ b ∧ b ≤ 0xF4 then
    match rest with
    | b2 :: b3 :: b4 :: _ =>
      let lo2 := if b = 0xF0 then 0x90 else 0x80
      let hi2 := if b = 0xF4 then 0x8F else 0xBF
      if lo2 ≤ b2 ∧ b2 ≤ hi2 ∧ isCont b3 ∧ isCont b4 then
        some (Char.ofNat ((b - 0xF0) * 262144 + (b2 - 0x80) * 4096 +
          (b3 - 0x80) * 64 + (b4 - 0x80)), 3)
      else none
    | _ => none
  else none

/-- Strict UTF-8 decoding of a byte sequence. -/
def utf8Decode? : List Nat → Option (List Char)
  | [] => some []
  | b :: rest => do
    let s ← utf8Step b rest
    let cs ← utf8Decode? (rest.drop s.2)
    pure (s.1 :: cs)
termination_by l => l.length
decreasing_by
  simp_wf
  omega

/-- Lossy UTF-8 decoding (replacement character on error), as form decoding
uses. -/
def utf8DecodeLossy : List Nat → List Char
  | [] => []
  | b :: rest =>
    match utf8Step b rest with
    | some s => s.1 :: utf8DecodeLossy (rest.drop s.2)
    | none => Char.ofNat 0xFFFD :: utf8DecodeLossy rest
termination_by l => l.length
decreasing_by
  all_goals simp_wf
  all_goals omega

/-- First pass of `decodeURIComponent`: literal characters and `%XX` bytes;
a `%` not followed by two hex digits is a `URIError` (`none`). -/
def percentUnits : List Char → Option (List (Sum Char Nat))
  | [] => some []
  | '%' :: h1 :: h2 :: rest =>
    if isHexDigit h1 ∧ isHexDigit h2 then
      (percentUnits rest).map (.inr (hexVal h1 * 16 + hexVal h2) :: ·)
    else none
  | '%' :: _ => none
  | c :: rest => (percentUnits rest).map (.inl c :: ·)

/-- Split the longest prefix of byte units. -/
def takeBytes : List (Sum Char Nat) → List Nat × List (Sum Char Nat)
  | .inr b :: rest =>
    let p := takeBytes rest
    (b :: p.1, p.2)
  | other => ([], other)

theorem takeBytes_length_le (l : List (Sum Char Nat)) :
    (takeBytes l).2.length ≤ l.length := by
  induction l with
  | nil => simp [takeBytes]
  | cons u rest ih =>
    cases u with
    | inl c => simp [takeBytes]
    | inr b => simp [takeBytes]; omega

/-- Second pass of `decodeURIComponent`: each maximal `%XX` run must be
valid UTF-8. -/
def unitsToChars? : List (Sum Char Nat) → Option (List Char)
  | [] => some []
  | .inl c :: rest => (unitsToChars? rest).map (c :: ·)
  | .inr b :: rest => do
    let p := takeBytes rest
    let cs ← utf8Decode? (b :: p.1)
    let cs2 ← unitsToChars? p.2
    pure (cs ++ cs2)
termination_by l => l.length
decreasing_by
  all_goals simp_wf
  all_goals have h9 := takeBytes_length_le rest
  all_goals omega

/-- `decodeURIComponent`, `none` modelling the `URIError` throw. -/
def decodeURIComponentChars (cs : List Char) : Option (List Char) :=
  percentUnits cs >>= unitsToChars?

/-- First pass of `URLSearchParams` form decoding: `+` is a space and a
malformed `%` passes through literally. -/
def formUnits : List Char → List (Sum Char Nat)
  | [] => []
  | '+' :: rest => .inl ' ' :: formUnits rest
  | '%' :: h1 :: h2 :: rest =>
    if isHexDigit h1 ∧ isHexDigit h2 then
      .inr (hexVal h1 * 16 + hexVal h2) :: formUnits rest
    else .inl '%' :: formUnits (h1 :: h2 :: rest)
  | c :: rest => .inl c :: formUnits rest

/-- Lossy unit decoding for form values. -/
def unitsToCharsLossy : List (Sum Char Nat) → List Char
  | [] => []
  | .inl c :: rest => c :: unitsToCharsLossy rest
  | .inr b :: rest =>
    let p := takeBytes rest
    utf8DecodeLossy (b :: p.1) ++ unitsToCharsLossy p.2
termination_by l => l.length
decreasing_by
  all_goals simp_wf
  all_goals have h9 := takeBytes_length_le rest
  all_goals omega

/-- Form decoding of one `URLSearchParams` name or value. -/
def formDecode (cs : List Char) : List Char :=
  unitsToCharsLossy (formUnits cs)

/-! ## Route compiler and matcher (`matcher.ts`) -/

/-- One piece of the compiled path pattern: a literal chunk, or the
`([^/]+)` capture group a bracketed segment compiles to. -/
inductive Piece : Type where
  | lit (s : List Char)
  | cap (name : List Char)

/-- The scan of `path.replace(/\{([^}]+)\}/g, ...)`: left-to-right, each
`{name}` with a non-empty brace-free name becomes a capture (recording the
name in order); braces that do not complete such a match stay literal.
`acc` holds the pending literal chunk, reversed. -/
def parsePathAux : List Char → List Char → List Piece × List (List Char)
  | acc, [] => (if acc.isEmpty then [] else [Piece.lit acc.reverse], [])
  | acc, '{' :: rest =>
    let content := rest.takeWhile (· ≠ '}')
    match hafter : rest.dropWhile (· ≠ '}') with
    | '}' :: rest2 =>
      if content.isEmpty then parsePathAux ('{' :: acc) rest
      else
        let p := parsePathAux [] rest2
        ((if acc.isEmpty then [] else [Piece.lit acc.reverse]) ++
          Piece.cap content :: p.1,
         content :: p.2)
    | _ => parsePathAux ('{' :: acc) rest
  | acc, c :: rest => parsePathAux (c :: acc) rest
termination_by _ cs => cs.length
decreasing_by
  all_goals simp_wf
  all_goals try omega
  · have hs : (rest.dropWhile (fun c => decide (c ≠ '}'))).length ≤ rest.length :=
      (List.dropWhile_sublist _).length_le
    rw [hafter] at hs
    simp at hs
    omega

/-- The `x-db` extension carried by a route. -/
structure XDb : Type where
  query : Value
  adapter : Option (List Char)
  fields : Option (List (List Char × List Char))
  returns : Option (List Char)

/-- An OpenAPI parameter declaration (only the parts the router reads:
name, location, declared schema type). -/
structure OpenApiParam : Type where
  name : List Char
  loc : List Char
  schemaType : Option (List Char)

/-- A compiled route (`CompiledRoute` in `types.ts`); the `RegExp` is
represented by its pieces. -/
structure CompiledRoute : Type where
  method : List Char
  pieces : List Piece
  paramNames : List (List Char)
  xDb : XDb
  parameters : List OpenApiParam
  usesAuth : Bool
  originalPath : List Char

/-- `/\$auth\.\w+/` applied at one position. -/
def matchAuthAt : List Char → Bool
  | '$' :: 'a' :: 'u' :: 't' :: 'h' :: '.' :: c :: _ => isWordChar c
  | _ => false

/-- `/\$auth\.\w+/.test(s)`: the pattern occurs somewhere in `s`. -/
def authRegexTest : List Char → Bool
  | [] => false
  | c :: rest => matchAuthAt (c :: rest) || authRegexTest rest

/-- `compileRoute(path, method, xDb, parameters)` from `matcher.ts`.  The
`usesAuth` flag is the `/\$auth\.\w+/` test on the query template (the
regexp coerces a non-string query to its string form). -/
def compileRoute (path : List Char) (method : List Char) (xDb : XDb)
    (parameters : List OpenApiParam) : CompiledRoute :=
  let p := parsePathAux [] path
  { method := method
    pieces := p.1
    paramNames := p.2
    xDb := xDb
    parameters := parameters
    usesAuth := authRegexTest (jsToString xDb.query)
    originalPath := path }

mutual

/-- Anchored matching of the compiled pattern (`^...$`) against a path,
returning the captures: literal chunks match literally, and each capture
group `([^/]+)` behaves as in the regex engine — greedy with backtracking,
binding a non-empty run of non-`/` characters.  (Literal chunks of an
OpenAPI path contain no regex metacharacters, so literal matching
coincides with the compiled `RegExp`.) -/
def matchPieces : List Piece → List Char → Option (List (List Char))
  | [], [] => some []
  | [], _ :: _ => none
  | Piece.lit s :: rest, cs =>
    if s.isPrefixOf cs then matchPieces rest (cs.drop s.length) else none
  | Piece.cap _ :: rest, cs => capTry rest cs (cs.takeWhile (· ≠ '/')).length
termination_by ps _ => (ps.length, 1, 0)

/-- Backtracking search for a capture: try the longest candidate (`k`
characters of the initial non-`/` run) first, shrinking on failure. -/
def capTry (rest : List Piece) (cs : List Char) : Nat → Option (List (List Char))
  | 0 => none
  | k + 1 =>
    match matchPieces rest (cs.drop (k + 1)) with
    | some caps => some (cs.take (k + 1) :: caps)
    | none => capTry rest cs k
termination_by k => (rest.length + 1, 0, k)

end

/-- The result of a successful route match. -/
structure RouteMatch : Type where
  route : CompiledRoute
  pathParams : List (List Char × List Char)

/-- `matchRoute(routes, method, path)` from `matcher.ts`: first route (in
registration order) whose lower-cased method equals the lower-cased request
method and whose pattern matches the path; captures are paired with the
parameter names and percent-decoded (`decodeURIComponent` may throw
`URIError`, modelled by `.error`). -/
def matchRoute : List CompiledRoute → List Char → List Char →
    Except Unit (Option RouteMatch)
  | [], _, _ => .ok none
  | route :: rest, method, path =>
    if route.method ≠ jsToLower method then matchRoute rest method path
    else match matchPieces route.pieces path with
      | none => matchRoute rest method path
      | some caps =>
        match caps.mapM decodeURIComponentChars with
        | none => .error ()
        | some decoded =>
          .ok (some { route := route, pathParams := route.paramNames.zip decoded })

/-! ## Response shaping (`response.ts` and the `jsonpointer` dependency) -/

/-- A row of the uniform row-set every adapter returns. -/
def Row : Type := List (List Char × Value)

/-- JS object property assignment `obj[k] = v`: updates an existing key in
place, else appends. -/
def objAssign (m : List (List Char × Value)) (k : List Char) (v : Value) :
    List (List Char × Value) :=
  if m.any (fun p => p.1 = k) then
    m.map (fun p => if p.1 = k then (k, v) else p)
  else m ++ [(k, v)]

/-- The reverse lookup `db_column -> apiField` built by `applyFieldMapping`
(later entries overwrite earlier ones, as JS object assignment does). -/
def reverseMapOf (fields : List (List Char × List Char)) :
    List (List Char × Value) :=
  fields.foldl (fun m p => objAssign m p.2 (vStr p.1)) []

/-- `applyFieldMapping(rows, fields)` from `response.ts`: rename each row's
keys through the reverse mapping; keys absent from the mapping pass through
unchanged. -/
def applyFieldMapping (rows : List Row) (fields : List (List Char × List Char)) :
    List Row :=
  let reverseMap := reverseMapOf fields
  rows.map (fun row =>
    row.foldl (fun mapped kv =>
      let apiKey := match assocFind kv.1 reverseMap with
        | some (vStr s) => s
        | _ => kv.1
      objAssign mapped apiKey kv.2) [])

/-- `~1` → `/` then `~0` → `~` (the `untilde` of the `jsonpointer`
package). -/
def untilde1 : List Char → List Char
  | '~' :: '1' :: rest => '/' :: untilde1 rest
  | c :: rest => c :: untilde1 rest
  | [] => []

def untilde0 : List Char → List Char
  | '~' :: '0' :: rest => '~' :: untilde0 rest
  | c :: rest => c :: untilde0 rest
  | [] => []

def untilde (s : List Char) : List Char :=
  untilde0 (untilde1 s)

/-- The walk of `jsonpointer.get` (the npm `jsonpointer` package used by
`shapeResponse`): apply each reference token by plain JS property access;
after every non-final step a non-object (or `null`) intermediate yields
`undefined`; the final access is returned as-is.  Walking off the end of the
row array or into a missing field therefore yields `undefined`, never an
error. -/
def jpWalk : Value → List (List Char) → Value
  | v, [] => v
  | v, t :: ts =>
    let v' := getProp v (untilde t)
    if ts.isEmpty then v'
    else if ¬ typeofIsObject v' ∨ isNullV v' then vUndefined
    else jpWalk v' ts

/-- `jsonpointer.get(obj, pointer)`: split the pointer on `/`, drop the
leading empty token, untilde each token and walk. -/
def jsonpointerGet (obj : Value) (pointer : List Char) : Value :=
  jpWalk obj ((splitOnChar '/' pointer).drop 1)

/-- Response-shaping configuration (`fields` and `returns` of the x-db
extension). -/
structure ResponseConfig : Type where
  fields : Option (List (List Char × List Char))
  returns : Option (List Char)

/-- The row-set as the JS array value the pointer is applied to. -/
def rowsToValue (rows : List Row) : Value :=
  vArr (rows.map (fun r => vObj r))

/-- `shapeResponse(rows, config)` from `response.ts`: apply field mapping
when `config.fields` is present, then, when `config.returns` is a non-empty
string, extract via the JSON pointer, coalescing a nullish extraction to
`null` (`jsonpointer.get(...) ?? null`). -/
def shapeResponse (rows : List Row) (config : Option ResponseConfig) : Value :=
  let mapped := match config with
    | some cfg =>
      match cfg.fields with
      | some fs => applyFieldMapping rows fs
      | none => rows
    | none => rows
  let result := rowsToValue mapped
  match config with
  | some cfg =>
    match cfg.returns with
    | some ptr =>
      if ¬ ptr.isEmpty then nullishCoalesce (jsonpointerGet result ptr) vNull
      else result
    | none => result
  | none => result

/-! ## Router request lifecycle (`router.ts`, the adapter-based version) -/

/-- The incoming request at the router boundary: optional method and URL (as
on `IncomingMessage`), an optional pre-parsed body (the framework layer's
`req.body`), and — as the model of the router's own stream read plus JSON
decode with raw-text fallback, which is I/O — the value that read would
produce. -/
structure Req : Type where
  method : Option (List Char)
  url : Option (List Char)
  body : Option Value
  streamBody : Value

/-- `parsePath(url)`: strip the query string (everything from the first
`?`). -/
def parsePath (url : List Char) : List Char :=
  url.takeWhile (· ≠ '?')

/-- `parseBody(req)`: the pre-parsed body when present, else the stream
read's result. -/
def parseBody (req : Req) : Value :=
  match req.body with
  | some b => b
  | none => req.streamBody

/-- One `name=value` piece of a query string, decoded as `URLSearchParams`
does. -/
def parsePair (piece : List Char) : List Char × List Char :=
  match indexOfChar '=' piece with
  | none => (formDecode piece, [])
  | some i => (formDecode (piece.take i), formDecode (piece.drop (i + 1)))

/-- The entries of `new URLSearchParams(queryString)`, in order (empty
pieces between `&`s are skipped). -/
def urlSearchParamsEntries (qs : List Char) : List (List Char × List Char) :=
  ((splitOnChar '&' qs).filter (fun p => ¬ p.isEmpty)).map parsePair

/-- `parseQuery(url, parameters)` from `router.ts`: no query string — empty
object; otherwise each entry becomes a string value, except parameters
declared `in: query` with schema type `array`, whose values are split on
commas into string arrays.  Duplicate names overwrite (JS object
assignment). -/
def parseQuery (url : List Char) (parameters : List OpenApiParam) :
    List (List Char × Value) :=
  let arrayParams := (parameters.filter (fun p =>
    p.loc = "query".data ∧ p.schemaType = some "array".data)).map (fun p => p.name)
  match indexOfChar '?' url with
  | none => []
  | some i =>
    let queryString := url.drop (i + 1)
    (urlSearchParamsEntries queryString).foldl (fun result kv =>
      if arrayParams.contains kv.1 then
        objAssign result kv.1 (vArr ((splitOnChar ',' kv.2).map vStr))
      else objAssign result kv.1 (vStr kv.2)) []

/-- `resolveAdapterName(explicitAdapter, adapters, route)` from `router.ts`
(adapters are modelled by their configured names): an explicitly named
adapter must be configured; otherwise exactly one adapter must be
configured.  `.error` models the `VALIDATION_ERROR` throws. -/
def resolveAdapterName (explicitAdapter : Option (List Char))
    (adapters : List (List Char)) : Except Unit (List Char) :=
  match explicitAdapter with
  | some a => if adapters.contains a then .ok a else .error ()
  | none =>
    match adapters with
    | [] => .error ()
    | [a] => .ok a
    | _ => .error ()

/-- The observable outcome of `RouterImpl.handle`: `noRoute` is the `null`
return; `response` a normal `{status, headers, body}`; `failure` a thrown
`OpenApiDbError` with its code and HTTP status; `jsError` a non-typed JS
throw (`URIError` from `decodeURIComponent`, or calling a string method on
a non-string query template); `evalFuel` is the unreachable fuel artefact
of the embedded evaluator. -/
inductive HandleResult : Type where
  | noRoute
  | response (status : Nat) (body : Value)
  | failure (code : List Char) (status : Nat)
  | jsError
  | evalFuel

/-- Mapping of evaluator errors to the thrown `OpenApiDbError`s (both carry
code `UNKNOWN_FUNCTION` and the default status 500). -/
def evalErrResult : EvalErr → HandleResult
  | .unknownFunction _ => .failure "UNKNOWN_FUNCTION".data 500
  | .invalidFunction _ => .failure "UNKNOWN_FUNCTION".data 500
  | .outOfFuel => .evalFuel

/-- The tail of `handle` after authentication: build the context, resolve
the adapter (all configured adapters are modelled with the PostgreSQL
adapter's semantics, `execute` being the `exec` oracle), interpolate,
execute, shape, and map an empty single-item extraction to `NOT_FOUND`. -/
def handleRest (route : CompiledRoute) (pathParams : List (List Char × List Char))
    (authContext : Value) (adapters : List (List Char))
    (exec : InterpolatedSqlQuery → List Row) (env : Env) (req : Req) :
    HandleResult :=
  let body := parseBody req
  let query := parseQuery (req.url.getD ['/']) route.parameters
  let context : Context :=
    { path := vObj (pathParams.map (fun p => (p.1, vStr p.2)))
      query := vObj query
      body := body
      auth := authContext }
  match resolveAdapterName route.xDb.adapter adapters with
  | .error _ => .failure "VALIDATION_ERROR".data 500
  | .ok _ =>
    match route.xDb.query with
    | vStr template =>
      match pgInterpolate template context env with
      | .error e => evalErrResult e
      | .ok artifact =>
        let rows := exec artifact
        let responseBody := shapeResponse rows
          (some { fields := route.xDb.fields, returns := route.xDb.returns })
        let returnsFirstItem : Bool := match route.xDb.returns with
          | some r => ('/' :: '0' :: []).isPrefixOf r
          | none => false
        if returnsFirstItem ∧ isNullV responseBody then
          .failure "NOT_FOUND".data 404
        else .response 200 responseBody
    | _ => .jsError

/-- `RouterImpl.handle(req)` from `router.ts`: lower-case the method
(defaulting to `get`), strip the query string, match a route (or return
`null`); when the route's template references `$auth`, require a configured
resolver (`AUTH_RESOLVER_MISSING`, 500) and a truthy resolved context
(`AUTH_REQUIRED`, 401); then proceed to interpolation, execution and
shaping.  The external auth resolver is the `auth` argument; the adapter's
`execute` is the `exec` oracle. -/
def handle (routes : List CompiledRoute) (adapters : List (List Char))
    (auth : Option (Req → Value)) (exec : InterpolatedSqlQuery → List Row)
    (env : Env) (req : Req) : HandleResult :=
  let method := jsToLower (req.method.getD "get".data)
  let path := parsePath (req.url.getD ['/'])
  match matchRoute routes method path with
  | .error _ => .jsError
  | .ok none => .noRoute
  | .ok (some m) =>
    if m.route.usesAuth then
      match auth with
      | none => .failure "AUTH_RESOLVER_MISSING".data 500
      | some resolver =>
        let authContext := resolver req
        if jsFalsy authContext then .failure "AUTH_REQUIRED".data 401
        else handleRest m.route m.pathParams authContext adapters exec env req
    else handleRest m.route m.pathParams vNull adapters exec env req

/-! ## Helper lemmas -/

/-- Navigation splits across list append (a nullish intermediate propagates
to `undefined` through the rest of the chain). -/
theorem navigate_append (p q : List (List Char)) (v : Value) :
    navigate v (p ++ q) = navigate (navigate v p) q := by
  induction p generalizing v with
  | nil => rfl
  | cons s p' ih =>
    by_cases hv : isNullish v
    · cases q with
      | nil => simp [navigate]
      | cons q0 q' => simp [navigate, hv]; rfl
    · simp [navigate, hv, ih]

/-- Navigating from a nullish value through a non-empty chain yields
`undefined`. -/
theorem navigate_nullish {v : Value} (h : isNullish v = true)
    (seg : List Char) (rest : List (List Char)) :
    navigate v (seg :: rest) = vUndefined := by
  simp [navigate, h]

/-! ## C10 -/

/-- C10.  `resolveVariable` is a total function (it returns a `Value` for
every reference and context, never an error), and
(a) a reference whose first dot-separated segment is not one of the four
namespaces resolves to `undefined` (the `default` switch branch), and
(b) whenever the property-access chain reaches a nullish intermediate after
some prefix of the remaining segments, the whole resolution yields
`undefined` rather than failing. -/
theorem resolveVariable_total_undefined :
    (∀ ref ctx, (sourceValue ctx ((splitOnChar '.' (trimChars ref)).headD [])) = none →
      resolveVariable ref ctx = vUndefined) ∧
    (∀ ref ctx v0 pre seg rest,
      splitOnChar '.' (trimChars ref) =
        ((splitOnChar '.' (trimChars ref)).headD []) :: (pre ++ seg :: rest) →
      sourceValue ctx ((splitOnChar '.' (trimChars ref)).headD []) = some v0 →
      isNullish (navigate v0 pre) = true →
      resolveVariable ref ctx = vUndefined) := by
  constructor
  · intro ref ctx h
    simp only [resolveVariable, h]
  · intro ref ctx v0 pre seg rest hsplit hsrc hnull
    simp only [resolveVariable, hsrc]
    have hdrop : (splitOnChar '.' (trimChars ref)).drop 1 = pre ++ seg :: rest := by
      rw [hsplit]; rfl
    rw [hdrop, navigate_append, navigate_nullish hnull]

/-- C10 witness: the two parts applied at concrete inputs: an unknown
namespace (`foo.bar`) and a nullish intermediate (`auth.tenantId` with a
null auth context). -/
theorem resolveVariable_total_undefined_witness :
    resolveVariable "foo.bar".data
      { path := vObj [], query := vObj [], body := vUndefined, auth := vNull } = vUndefined ∧
    resolveVariable "auth.tenantId".data
      { path := vObj [], query := vObj [], body := vUndefined, auth := vNull } = vUndefined := by
  constructor
  · exact resolveVariable_total_undefined.1 "foo.bar".data _ (by rfl)
  · exact resolveVariable_total_undefined.2 "auth.tenantId".data _ vNull []
      "tenantId".data [] (by rfl) (by rfl) (by rfl)

/-! ## C8 -/

/-- C8.  For every context and reference addressed to the `query`
namespace, when the fully resolved value is a string: a comma-containing
string resolves to the array of its comma-separated parts, and a comma-free
string is returned as the scalar string unchanged. -/
theorem resolveVariable_query_comma :
    ∀ ref ctx rest (s : List Char),
      splitOnChar '.' (trimChars ref) = "query".data :: rest →
      navigate ctx.query rest = vStr s →
      resolveVariable ref ctx =
        (if s.contains ',' then vArr ((splitOnChar ',' s).map vStr) else vStr s) := by
  intro ref ctx rest s hsplit hnav
  have hsrc : sourceValue ctx "query".data = some ctx.query := by rfl
  simp only [resolveVariable, hsplit, List.headD_cons, List.drop_succ_cons,
    List.drop_zero, hsrc, hnav]
  simp

/-- C8 witness: `"1,2,3"` resolves to the three-element string array and
`"1"` to the scalar string, as the spec's examples require. -/
theorem resolveVariable_query_comma_witness :
    resolveVariable "query.ids".data
      { path := vObj [], query := vObj [("ids".data, vStr "1,2,3".data)],
        body := vUndefined, auth := vNull } =
      vArr [vStr "1".data, vStr "2".data, vStr "3".data] ∧
    resolveVariable "query.ids".data
      { path := vObj [], query := vObj [("ids".data, vStr "1".data)],
        body := vUndefined, auth := vNull } = vStr "1".data := by
  constructor
  · have := resolveVariable_query_comma "query.ids".data
      { path := vObj [], query := vObj [("ids".data, vStr "1,2,3".data)],
        body := vUndefined, auth := vNull } ["ids".data] "1,2,3".data (by rfl) (by rfl)
    rw [this]
    rfl
  · have := resolveVariable_query_comma "query.ids".data
      { path := vObj [], query := vObj [("ids".data, vStr "1".data)],
        body := vUndefined, auth := vNull } ["ids".data] "1".data (by rfl) (by rfl)
    rw [this]
    rfl

/-! ## C3 -/

/-- C3.  `default(X, Y)` semantics of `evaluateFunction`: for every context
and any argument text whose split pieces evaluate to the two values `x` and
`y`, the call returns `y` exactly when `x` is `null` or `undefined`, and
returns `x` unchanged otherwise (in particular for `0`, `false` and the
empty string, which are not nullish). -/
theorem evaluateFunction_default :
    ∀ (fuel : Nat) (expr argsStr : List Char) (ctx : Context) (env : Env)
      (x y : Value),
      splitFnCall expr = some ("default".data, argsStr) →
      evalArgsListF fuel (splitTopArgs argsStr) ctx env = .ok [x, y] →
      evaluateFunctionF (fuel + 1) expr ctx env =
        .ok (if isNullish x then y else x) := by
  intro fuel expr argsStr ctx env x y hsplit hargs
  rw [evaluateFunctionF, hsplit]
  simp only [hargs]
  simp [Except.bind, jsIndex, nullishCoalesce]

unseal evaluateFunctionF evalArgsListF evaluateArgF in
/-- C3 witness: `default(query.status, 'active')` with an absent parameter
returns the fallback (`x` is `undefined`), and `default(body.s, 'fb')` with
`body.s = ""` returns the empty string unchanged. -/
theorem evaluateFunction_default_witness :
    evaluateFunctionF 40 "default(query.status, 'active')".data
      { path := vObj [], query := vObj [], body := vUndefined, auth := vNull }
      { nowVal := 0, uuidVal := [] } = .ok (vStr "active".data) ∧
    evaluateFunctionF 40 "default(body.s, 'fb')".data
      { path := vObj [], query := vObj [],
        body := vObj [("s".data, vStr [])], auth := vNull }
      { nowVal := 0, uuidVal := [] } = .ok (vStr []) := by
  constructor
  · have h := evaluateFunction_default 39 "default(query.status, 'active')".data
      "query.status, 'active'".data
      { path := vObj [], query := vObj [], body := vUndefined, auth := vNull }
      { nowVal := 0, uuidVal := [] } vUndefined (vStr "active".data)
      (by rfl) (by rfl)
    exact h
  · have h := evaluateFunction_default 39 "default(body.s, 'fb')".data
      "body.s, 'fb'".data
      { path := vObj [], query := vObj [],
        body := vObj [("s".data, vStr [])], auth := vNull }
      { nowVal := 0, uuidVal := [] } (vStr []) (vStr "fb".data)
      (by rfl) (by rfl)
    exact h

/-! ## C6 -/

/-- A MongoDB query carrying a `collection`, a `pipeline` AND an
`operation` whose name is outside the supported set. -/
def c6BothQuery : Value :=
  vObj [("collection".data, vStr "c".data),
        ("pipeline".data, vArr []),
        ("operation".data, vStr "bogus".data)]

/-- C6 counterexample: the claim says `validateQuery` accepts only queries
with exactly one of `operation`/`pipeline` and rejects any unsupported
operation name; but this query has both keys and an unsupported operation
name, and is accepted (the pipeline branch never examines `operation`). -/
theorem mongoValidateQuery_both_accepted :
    mongoValidateQuery c6BothQuery = .valid ∧
    hasKey c6BothQuery "operation".data = true ∧
    hasKey c6BothQuery "pipeline".data = true ∧
    getProp c6BothQuery "operation".data = vStr "bogus".data ∧
    SUPPORTED_OPERATIONS.contains "bogus".data = false := by
  refine ⟨rfl, rfl, rfl, rfl, ?_⟩
  rfl

/-- The amended acceptance condition, written from the amended claim's
words: an object (non-null) with a non-empty string `collection`, and then
— `pipeline` taking precedence — if a `pipeline` key is present the query
is accepted exactly when the pipeline is an array (`operation` is not
examined); otherwise `operation` must be a string in the supported set
whose required sub-fields are present. -/
def mongoAcceptedSpec (q : Value) : Bool :=
  !(isNullV q) && typeofIsObject q &&
  (match getProp q "collection".data with
   | vStr s => !s.isEmpty
   | _ => false) &&
  (if hasKey q "pipeline".data then isArrayV (getProp q "pipeline".data)
   else match getProp q "operation".data with
     | vStr op =>
       SUPPORTED_OPERATIONS.contains op &&
         (match validateOperationFields op q with
          | .valid => true
          | .invalid _ => false)
     | _ => false)

/-- C6 amended.  `MongoAdapter.validateQuery` accepts a query exactly under
the amended condition: object with a non-empty string `collection` and at
least one of `operation`/`pipeline`, where a present `pipeline` key must be
an array (taking precedence over `operation`, which is then not examined),
and otherwise `operation` must be a string in the fixed supported set with
its required sub-fields present (e.g. `insertOne` without a `document`
object, or `updateOne` without `filter`/`update` objects, is rejected). -/
theorem mongoValidateQuery_characterization :
    ∀ q : Value, mongoValidateQuery q = .valid ↔ mongoAcceptedSpec q = true := by
  intro q
  unfold mongoValidateQuery mongoAcceptedSpec
  by_cases h1 : isNullV q ∨ ¬ typeofIsObject q
  · rcases h1 with h1 | h1 <;> simp [h1]
  · push_neg at h1
    simp only [h1.1, h1.2]
    simp only [Bool.not_eq_true] at *
    simp [h1.1, h1.2]
    cases hcol : getProp q "collection".data with
    | vStr s =>
      by_cases hs : s.isEmpty
      · simp [hs]
      · simp [hs]
        by_cases hp : hasKey q "pipeline".data
        · by_cases ha : isArrayV (getProp q "pipeline".data)
          · simp [hp, ha]
          · simp [hp, ha]
        · simp [hp]
          cases hop : getProp q "operation".data with
          | vStr op =>
            by_cases hsup : SUPPORTED_OPERATIONS.contains op
            · have hmem : op ∈ SUPPORTED_OPERATIONS := by simpa using hsup
              cases hval : validateOperationFields op q with
              | valid => simp [hmem, hval]
              | invalid e => simp [hmem, hval]
            · have hmem : op ∉ SUPPORTED_OPERATIONS := by simpa using hsup
              simp [hmem]
          | vNull => simp
          | vUndefined => simp
          | vBool b => simp
          | vNum n => simp
          | vArr xs => simp
          | vObj fs => simp
          | vDate d => simp
    | vNull => simp
    | vUndefined => simp
    | vBool b => simp
    | vNum n => simp
    | vArr xs => simp
    | vObj fs => simp
    | vDate d => simp

/-! ## C9 -/

/-- C9.  Edge-case behaviour of the two template scanners: an empty
template yields an empty reference sequence (`parseTemplate`) and an empty
token list (`tokenize`); a template with no open delimiter likewise yields
no references, and tokenizes to a single text chunk; and whenever the scan
(at any suffix `cs`, i.e. after any number of complete references) meets an
open delimiter with no matching close, no reference is reported for it and
the whole remainder from that open delimiter is kept as plain text — not
dropped and not misreported as a match. -/
theorem template_scan_edge_cases :
    (parseTemplate [] = [] ∧ tokenize [] = some []) ∧
    (∀ t : List Char, indexOfOpen t = none →
      parseTemplate t = [] ∧
      tokenize t = some (if t.isEmpty then [] else [Token.tText t])) ∧
    (∀ (cs : List Char) (base i : Nat), indexOfOpen cs = some i →
      findCloseAux (cs.drop (i + 3)) 1 = none →
      parseAux cs base = [] ∧
      tokenizeAux cs = some ((if 0 < i then [Token.tText (cs.take i)] else []) ++
        [Token.tText (cs.drop i)])) := by
  refine ⟨⟨?_, ?_⟩, ?_, ?_⟩
  · rw [parseTemplate, parseAux.eq_def]
    rfl
  · rw [tokenize, tokenizeAux.eq_def]
    rfl
  · intro t h
    constructor
    · rw [parseTemplate, parseAux.eq_def]
      split
      · rfl
      · rename_i i hEq
        rw [h] at hEq
        exact Option.noConfusion hEq
    · rw [tokenize, tokenizeAux.eq_def]
      split
      · rfl
      · rename_i i hEq
        rw [h] at hEq
        exact Option.noConfusion hEq
  · intro cs base i h h2
    constructor
    · rw [parseAux.eq_def]
      split
      · rfl
      · rename_i i' hEq
        rw [h] at hEq
        injection hEq with hi
        subst hi
        split
        · rfl
        · rename_i c hEq2
          rw [h2] at hEq2
          exact Option.noConfusion hEq2
    · rw [tokenizeAux.eq_def]
      split
      · rename_i hEq
        rw [h] at hEq
        exact Option.noConfusion hEq
      · rename_i i' hEq
        rw [h] at hEq
        injection hEq with hi
        subst hi
        split
        · rfl
        · rename_i c hEq2
          rw [h2] at hEq2
          exact Option.noConfusion hEq2

unseal findCloseAux in
/-- C9 witness: the three parts at concrete templates — the empty template,
a delimiter-free template, and `"ab${{ x"` whose open delimiter at offset 2
is never closed. -/
theorem template_scan_edge_cases_witness :
    parseTemplate ['a', 'b', 'c'] = [] ∧
    tokenize ['a', 'b', 'c'] = some [Token.tText ['a', 'b', 'c']] ∧
    parseAux ['a', 'b', '$', '{', '{', ' ', 'x'] 0 = [] ∧
    tokenizeAux ['a', 'b', '$', '{', '{', ' ', 'x'] =
      some [Token.tText ['a', 'b'],
            Token.tText ['$', '{', '{', ' ', 'x']] := by
  have h1 := template_scan_edge_cases.2.1 ['a', 'b', 'c'] (by rfl)
  have h2 := template_scan_edge_cases.2.2 ['a', 'b', '$', '{', '{', ' ', 'x'] 0 2
    (by rfl) (by rfl)
  refine ⟨h1.1, ?_, h2.1, ?_⟩
  · rw [h1.2]; rfl
  · rw [h2.2]; rfl

/-! ## C7 -/

/-- The path a compiled pattern accepts, reassembled from its pieces with
the given capture values substituted for the capture groups. -/
def renderPieces : List Piece → List (List Char) → List Char
  | [], _ => []
  | Piece.lit s :: rest, caps => s ++ renderPieces rest caps
  | Piece.cap _ :: rest, caps => caps.headD [] ++ renderPieces rest caps.tail

/-- Number of capture groups of a compiled pattern. -/
def countCaps : List Piece → Nat
  | [] => 0
  | Piece.lit _ :: rest => countCaps rest
  | Piece.cap _ :: rest => countCaps rest + 1

/-- A successful backtracking capture takes between 1 and `k` characters of
the path and hands the remainder to the rest of the pattern. -/
theorem capTry_sound :
    ∀ (k : Nat) (rest : List Piece) (cs : List Char) (caps : List (List Char)),
      capTry rest cs k = some caps →
      ∃ m caps', 1 ≤ m ∧ m ≤ k ∧ caps = cs.take m :: caps' ∧
        matchPieces rest (cs.drop m) = some caps' := by
  intro k
  induction k with
  | zero => intro rest cs caps h; rw [capTry] at h; exact Option.noConfusion h
  | succ k ih =>
    intro rest cs caps h
    rw [capTry] at h
    split at h
    · rename_i caps0 hm
      injection h with h
      exact ⟨k + 1, caps0, by omega, by omega, h.symm, hm⟩
    · obtain ⟨m, caps', h1, h2, h3, h4⟩ := ih rest cs caps h
      exact ⟨m, caps', h1, by omega, h3, h4⟩

/-- Elements of `cs.take m` satisfy `p` when `m` does not exceed the length
of `cs.takeWhile p`. -/
theorem take_le_takeWhile_all {p : Char → Bool} {cs : List Char} {m : Nat}
    (hm : m ≤ (cs.takeWhile p).length) : ∀ c ∈ cs.take m, p c := by
  intro c hc
  have hpre : cs.takeWhile p <+: cs := List.takeWhile_prefix p
  obtain ⟨t, ht⟩ := hpre
  have : cs.take m = (cs.takeWhile p).take m := by
    conv_lhs => rw [← ht]
    exact List.take_append_of_le_length hm
  rw [this] at hc
  exact List.mem_takeWhile_imp (List.take_subset m _ hc)

/-- Soundness of compiled-pattern matching: a successful match decomposes
the path into the pattern's literal chunks and per-capture segments, yields
one capture per capture group, and every capture is a non-empty run that
contains no `/` (a bracketed segment cannot cross a path-segment
boundary). -/
theorem matchPieces_sound :
    ∀ (ps : List Piece) (cs : List Char) (caps : List (List Char)),
      matchPieces ps cs = some caps →
      cs = renderPieces ps caps ∧ caps.length = countCaps ps ∧
        ∀ c ∈ caps, c ≠ [] ∧ ∀ ch ∈ c, ch ≠ '/' := by
  intro ps
  induction ps with
  | nil =>
    intro cs caps h
    cases cs with
    | nil =>
      rw [matchPieces] at h
      injection h with h
      simp [← h, renderPieces, countCaps]
    | cons c cs' => rw [matchPieces] at h; exact Option.noConfusion h
  | cons piece rest ih =>
    intro cs caps h
    cases piece with
    | lit s =>
      rw [matchPieces] at h
      split at h
      · rename_i hpre
        obtain ⟨h1, h2, h3⟩ := ih _ _ h
        refine ⟨?_, by simpa [countCaps] using h2, h3⟩
        rw [renderPieces, ← h1]
        exact (List.prefix_iff_eq_append.1 (List.isPrefixOf_iff_prefix.1 hpre)).symm
      · exact Option.noConfusion h
    | cap name =>
      rw [matchPieces] at h
      obtain ⟨m, caps', hm1, hm2, hcaps, hrest⟩ := capTry_sound _ _ _ _ h
      obtain ⟨h1, h2, h3⟩ := ih _ _ hrest
      subst hcaps
      have hslash : ∀ ch ∈ cs.take m, ch ≠ '/' := by
        intro ch hch
        have := @take_le_takeWhile_all (fun c => decide (c ≠ '/')) cs m hm2 ch hch
        simpa using this
      have hlen : m ≤ cs.length := by
        calc m ≤ (cs.takeWhile (fun c => decide (c ≠ '/'))).length := hm2
        _ ≤ cs.length := (List.takeWhile_prefix _).length_le
      constructor
      · rw [renderPieces]
        simp only [List.headD_cons, List.tail_cons]
        rw [← h1]
        exact (List.take_append_drop m cs).symm
      constructor
      · simp [countCaps, ← h2]
      · intro c hc
        rcases List.mem_cons.1 hc with hc | hc
        · subst hc
          refine ⟨?_, hslash⟩
          have : (cs.take m).length = m := by
            rw [List.length_take]
            omega
          intro hnil
          rw [hnil] at this
          simp at this
          omega
        · exact h3 c hc

/-- The query string (everything from the first `?`) is stripped by
`parsePath`, and a URL without `?` passes through unchanged. -/
theorem parsePath_strip (p q : List Char) (hq : '?' ∉ p) :
    parsePath p = p ∧ parsePath (p ++ '?' :: q) = p := by
  induction p with
  | nil => exact ⟨rfl, rfl⟩
  | cons c p' ih =>
    have hc : c ≠ '?' := fun h => hq (by simp [h])
    have hq' : '?' ∉ p' := fun h => hq (List.mem_cons_of_mem _ h)
    obtain ⟨ih1, ih2⟩ := ih hq'
    constructor
    · rw [parsePath, List.takeWhile_cons, if_pos (by simpa using hc)]
      rw [parsePath] at ih1
      rw [ih1]
    · rw [parsePath, List.cons_append, List.takeWhile_cons, if_pos (by simpa using hc)]
      rw [parsePath] at ih2
      rw [ih2]

/-- C7.  The route-matching contract:
(1) matching is case-insensitive in the method — two methods with the same
lower-casing match identically;
(2) matching walks the registration list in order and returns the first
route whose method and pattern both match, pairing the declared parameter
names with the percent-decoded capture values (a malformed percent escape
is the thrown `URIError`), so a literal route registered before an
overlapping parameterized route wins;
(3) a successful pattern match binds each bracketed segment to a non-empty
capture that cannot contain `/` (it cannot cross a path segment), with
exactly one capture per capture group, and the path is exactly the pattern's
literals interleaved with the captures;
(4) the router matches on the path with the query string stripped:
everything from the first `?` of the URL is removed before matching. -/
theorem routeMatching_contract :
    (∀ (routes : List CompiledRoute) (m1 m2 p : List Char),
      jsToLower m1 = jsToLower m2 →
      matchRoute routes m1 p = matchRoute routes m2 p) ∧
    (∀ (r : CompiledRoute) (rs : List CompiledRoute) (m p : List Char),
      matchRoute (r :: rs) m p =
        if r.method ≠ jsToLower m then matchRoute rs m p
        else match matchPieces r.pieces p with
          | none => matchRoute rs m p
          | some caps =>
            match caps.mapM decodeURIComponentChars with
            | none => .error ()
            | some decoded =>
              .ok (some { route := r, pathParams := r.paramNames.zip decoded })) ∧
    (∀ (ps : List Piece) (cs : List Char) (caps : List (List Char)),
      matchPieces ps cs = some caps →
      cs = renderPieces ps caps ∧ caps.length = countCaps ps ∧
        ∀ c ∈ caps, c ≠ [] ∧ ∀ ch ∈ c, ch ≠ '/') ∧
    (∀ (p q : List Char), '?' ∉ p →
      parsePath p = p ∧ parsePath (p ++ '?' :: q) = p) := by
  refine ⟨?_, ?_, matchPieces_sound, ?_⟩
  · intro routes m1 m2 p hm
    induction routes with
    | nil => rfl
    | cons r rs ih => rw [matchRoute, matchRoute, hm, ih]
  · intro r rs m p
    rw [matchRoute]
  · exact parsePath_strip

/-- A literal route `GET /items`. -/
def routeItems : CompiledRoute :=
  compileRoute "/items".data "get".data
    { query := vStr "SELECT 1".data, adapter := none, fields := none, returns := none } []

/-- A parameterized route `GET /items/{id}`, registered after the literal
one. -/
def routeItem : CompiledRoute :=
  compileRoute "/items/{id}".data "get".data
    { query := vStr "SELECT 1".data, adapter := none, fields := none, returns := none } []

unseal parseAux matchPieces capTry parsePathAux unitsToChars? utf8Decode? in
/-- C7 witness: the contract applied at concrete inputs — `GET` and `get`
match identically over the two-route table; the first-match recurrence at
the literal route (so `GET /items` hits `/items`, registered first, not
`/items/{id}`); the binding of `{id}` in `/items/abc` to the single
non-empty, slash-free capture `abc`; and query-string stripping of
`/items?a=1`. -/
theorem routeMatching_contract_witness :
    matchRoute [routeItems, routeItem] "GET".data "/items".data =
      matchRoute [routeItems, routeItem] "get".data "/items".data ∧
    matchRoute [routeItems, routeItem] "get".data "/items".data =
      .ok (some { route := routeItems, pathParams := [] }) ∧
    ("/items/abc".data = renderPieces routeItem.pieces [['a', 'b', 'c']] ∧
      [['a', 'b', 'c']].length = countCaps routeItem.pieces ∧
      ∀ c ∈ [['a', 'b', 'c']], c ≠ [] ∧ ∀ ch ∈ c, ch ≠ '/') ∧
    parsePath "/items".data = "/items".data ∧
    parsePath ("/items".data ++ '?' :: "a=1".data) = "/items".data := by
  refine ⟨?_, ?_, ?_, ?_⟩
  · exact routeMatching_contract.1 [routeItems, routeItem] "GET".data "get".data
      "/items".data (by rfl)
  · rfl
  · exact routeMatching_contract.2.2.1 routeItem.pieces "/items/abc".data
      [['a', 'b', 'c']] (by rfl)
  · exact routeMatching_contract.2.2.2 "/items".data "a=1".data (by decide)

/-! ## C2 -/

/-- A query template referencing the auth namespace in the documented
`${{ auth.tenantId }}` expression syntax. -/
def authTemplate : List Char :=
  "SELECT * FROM users WHERE tenant_id = ".data ++
    '$' :: '{' :: '{' :: " auth.tenantId ".data ++ '}' :: '}' :: []

/-- The same query in the legacy `$auth.tenantId` syntax that the
`usesAuth` regex was written for. -/
def authTemplateOld : List Char :=
  "SELECT * FROM users WHERE tenant_id = $auth.tenantId".data

/-- `GET /users` with the `${{ auth.tenantId }}` template. -/
def routeUsersAuth : CompiledRoute :=
  compileRoute "/users".data "get".data
    { query := vStr authTemplate, adapter := none, fields := none, returns := none } []

/-- `GET /users` with the legacy `$auth.tenantId` template. -/
def routeUsersAuthOld : CompiledRoute :=
  compileRoute "/users".data "get".data
    { query := vStr authTemplateOld, adapter := none, fields := none, returns := none } []

/-- A `GET /users` request with a pre-parsed (absent) body. -/
def reqUsers : Req :=
  { method := some "GET".data, url := some "/users".data,
    body := some vUndefined, streamBody := vUndefined }

/-- An arbitrary request environment for the impure built-ins. -/
def envNil : Env := { nowVal := 0, uuidVal := [] }

unseal parseAux matchPieces capTry parsePathAux findCloseAux in
/-- C2 (code bug).  `compileRoute` detects an auth reference with the regex
`/\$auth\.\w+/`, which does not match the `${{ auth.tenantId }}` expression
syntax the templates use (it only matches the legacy `$auth.tenantId`
spelling).  Consequently, for a route whose template references
`${{ auth.tenantId }}`, `usesAuth` is `false`, the configured auth resolver
is never invoked, and a request with a resolver that returns `null`
completes with HTTP 200 (the query running with an undefined parameter)
instead of failing with `AUTH_REQUIRED` 401 — contrary to the claim and to
the README (`Routes using auth return 401 if the auth resolver returns
null`).  The same request against the legacy spelling does raise
`AUTH_REQUIRED` 401, isolating the defect to the delimiter-blind regex. -/
theorem auth_required_not_raised :
    routeUsersAuth.usesAuth = false ∧
    handle [routeUsersAuth] ["pg".data] (some fun _ => vNull) (fun _ => []) envNil
      reqUsers = .response 200 (vArr []) ∧
    routeUsersAuthOld.usesAuth = true ∧
    handle [routeUsersAuthOld] ["pg".data] (some fun _ => vNull) (fun _ => []) envNil
      reqUsers = .failure "AUTH_REQUIRED".data 401 := by
  refine ⟨rfl, rfl, rfl, rfl⟩

/-! ## C4 -/

/-- `GET /count` whose extraction pointer `/0/count` targets a field inside
the first row — not the single-item pointer `/0`. -/
def routeCount : CompiledRoute :=
  compileRoute "/count".data "get".data
    { query := vStr "SELECT 1".data, adapter := none, fields := none,
      returns := some "/0/count".data } []

/-- A `GET /count` request. -/
def reqCount : Req :=
  { method := some "GET".data, url := some "/count".data,
    body := some vUndefined, streamBody := vUndefined }

unseal parseAux matchPieces capTry parsePathAux findCloseAux in
/-- C4 counterexample: shaping an empty row-set with the pointer `/0/count`
(not the single-item pointer `/0`) yields `null`, and the claim says such a
null is passed through as a legitimate response value; but the router's
check is `returns?.startsWith("/0")`, so this request fails with
`NOT_FOUND` 404 instead of returning the null. -/
theorem notFound_pointer_shape_counterexample :
    shapeResponse ([] : List Row)
      (some { fields := none, returns := some "/0/count".data }) = vNull ∧
    "/0/count".data ≠ "/0".data ∧
    handle [routeCount] ["pg".data] none (fun _ => []) envNil reqCount =
      .failure "NOT_FOUND".data 404 := by
  refine ⟨rfl, by decide, rfl⟩

/-- C4 amended.  Pointer resolution that walks off the row array or into a
missing field yields a null shaped result rather than an error
(`shapeResponse` is total and coalesces a nullish extraction to `null`),
and the Router converts a null shaped result into a `NOT_FOUND` (404)
failure whenever the configured pointer STARTS WITH `/0` — i.e. targets the
first row or any value inside it — while a null under a pointer that does
not start with `/0` (and a null with no pointer at all) is passed through
as the 200 response body.  Stated as the router's post-execution behaviour
for any matched, auth-free route whose interpolation succeeds. -/
theorem notFound_conversion (routes : List CompiledRoute)
    (adapters : List (List Char)) (auth : Option (Req → Value))
    (exec : InterpolatedSqlQuery → List Row) (env : Env) (req : Req)
    (m : RouteMatch) (template : List Char) (artifact : InterpolatedSqlQuery)
    (aname : List Char) :
    matchRoute routes (jsToLower (req.method.getD "get".data))
      (parsePath (req.url.getD ['/'])) = .ok (some m) →
    m.route.usesAuth = false →
    m.route.xDb.query = vStr template →
    resolveAdapterName m.route.xDb.adapter adapters = .ok aname →
    pgInterpolate template
      { path := vObj (m.pathParams.map (fun p => (p.1, vStr p.2)))
        query := vObj (parseQuery (req.url.getD ['/']) m.route.parameters)
        body := parseBody req
        auth := vNull } env = .ok artifact →
    handle routes adapters auth exec env req =
      (let responseBody := shapeResponse (exec artifact)
        (some { fields := m.route.xDb.fields, returns := m.route.xDb.returns })
       let returnsFirstItem : Bool := match m.route.xDb.returns with
         | some r => ('/' :: '0' :: []).isPrefixOf r
         | none => false
       if returnsFirstItem ∧ isNullV responseBody
       then HandleResult.failure "NOT_FOUND".data 404
       else HandleResult.response 200 responseBody) := by
  intro hmatch hauth hquery hadapter hinterp
  rw [handle]
  simp only [hmatch, hauth, Bool.false_eq_true, if_false]
  rw [handleRest]
  simp only [hadapter, hquery, hinterp]

/-- `GET /first` with the single-item pointer `/0`. -/
def routeFirst : CompiledRoute :=
  compileRoute "/first".data "get".data
    { query := vStr "SELECT 1".data, adapter := none, fields := none,
      returns := some "/0".data } []

/-- A `GET /first` request. -/
def reqFirst : Req :=
  { method := some "GET".data, url := some "/first".data,
    body := some vUndefined, streamBody := vUndefined }

unseal parseAux matchPieces capTry parsePathAux findCloseAux in
/-- C4 witness: the amended conversion rule applied to `GET /first` with
pointer `/0` over an empty row-set — the shaped result is null and the
router returns the `NOT_FOUND` failure. -/
theorem notFound_conversion_witness :
    handle [routeFirst] ["pg".data] none (fun _ => []) envNil reqFirst =
      .failure "NOT_FOUND".data 404 := by
  have h := notFound_conversion [routeFirst] ["pg".data] none (fun _ => []) envNil
    reqFirst { route := routeFirst, pathParams := [] } "SELECT 1".data
    { sql := "SELECT 1".data, values := [] } "pg".data
    (by rfl) (by rfl) (by rfl) (by rfl) (by rfl)
  rw [h]
  rfl

/-! ## C1 -/

/-- The span discipline of the references `parseTemplate` returns when
scanned from position `pos` of a template of length `tLen`: spans are
in left-to-right order, non-overlapping, and within bounds. -/
inductive Spans (tLen : Nat) : Nat → List Ref → Prop where
  | nil (pos : Nat) : Spans tLen pos []
  | cons (pos : Nat) (r : Ref) (rs : List Ref)
      (h1 : pos ≤ r.start) (h2 : r.start ≤ r.stop) (h3 : r.stop ≤ tLen)
      (htail : Spans tLen r.stop rs) : Spans tLen pos (r :: rs)

/-- The scan of `parseTemplate` produces ordered, non-overlapping, in-bounds
spans. -/
theorem spans_parseAux (n : Nat) :
    ∀ (cs : List Char) (base : Nat), cs.length ≤ n →
      Spans (base + cs.length) base (parseAux cs base) := by
  induction n with
  | zero =>
    intro cs base hlen
    have : cs = [] := List.eq_nil_of_length_eq_zero (Nat.le_zero.1 hlen)
    subst this
    rw [parseAux.eq_def]
    exact Spans.nil base
  | succ n ih =>
    intro cs base hlen
    rw [parseAux.eq_def]
    split
    · exact Spans.nil base
    · rename_i i hEq
      split
      · exact Spans.nil base
      · rename_i c hEq2
        have hi := indexOfOpen_le hEq
        have hc := findCloseAux_le hEq2
        simp only [List.length_drop] at hc
        have hrest : ((cs.drop (i + 3)).drop (c + 2)).length ≤ n := by
          simp only [List.length_drop]
          omega
        have htail := ih ((cs.drop (i + 3)).drop (c + 2)) (base + i + 3 + c + 2) hrest
        have harith : base + i + 3 + c + 2 + ((cs.drop (i + 3)).drop (c + 2)).length =
            base + cs.length := by
          simp only [List.length_drop]
          omega
        rw [harith] at htail
        refine Spans.cons base _ _ ?_ ?_ ?_ htail
        · show base ≤ base + i
          omega
        · show base + i ≤ base + i + 3 + c + 2
          omega
        · show base + i + 3 + c + 2 ≤ base + cs.length
          omega

/-- The SQL text `PgAdapter.interpolate` assembles: the template's text
outside the reference spans, with the `i`-th reference (counting from `n`)
replaced by the positional placeholder `$i` — so a template with `N`
references yields exactly the placeholders `$n`, …, `$(n+N-1)` in
left-to-right template order, and nothing else is altered. -/
def buildSqlFrom (template : List Char) : Nat → Nat → List Ref → List Char
  | pos, _, [] => template.drop pos
  | pos, n, r :: rs =>
    (template.drop pos).take (r.start - pos) ++ placeholderFor n ++
      buildSqlFrom template r.stop (n + 1) rs

/-- Evaluation of located references in left-to-right order, as the
adapters' splice loops perform it. -/
def evalRefs (ctx : Context) (env : Env) : List Ref → Except EvalErr (List Value)
  | [] => pure []
  | r :: rs => do
    let v ← evalRefValue r.inner ctx env
    let vs ← evalRefs ctx env rs
    pure (v :: vs)

/-- A successful reference evaluation yields one value per reference. -/
theorem evalRefs_length (ctx : Context) (env : Env) :
    ∀ (refs : List Ref) (vs : List Value), evalRefs ctx env refs = .ok vs →
      vs.length = refs.length := by
  intro refs
  induction refs with
  | nil => intro vs h; rw [evalRefs] at h; simp [pure, Except.pure] at h; simp [← h]
  | cons r rs ih =>
    intro vs h
    rw [evalRefs] at h
    cases hfr : evalRefValue r.inner ctx env with
    | error e => rw [hfr] at h; simp [bind, Except.bind] at h
    | ok v =>
      rw [hfr] at h
      cases hrs : evalRefs ctx env rs with
      | error e =>
        rw [hrs] at h
        simp [bind, Except.bind, pure, Except.pure] at h
      | ok vs' =>
        rw [hrs] at h
        simp [bind, Except.bind, pure, Except.pure] at h
        rw [← h]
        simp [ih vs' hrs]

/-- The splice loop of `PgAdapter.interpolate`, characterized: starting
from an already-processed prefix `done` (with the matching offset) and the
unprocessed template suffix, a run over span-disciplined references whose
evaluations all succeed produces exactly the interleaving of the remaining
text chunks with the next positional placeholders, and appends the resolved
values in order. -/
theorem pgLoop_spec (ctx : Context) (env : Env) :
    ∀ (refs : List Ref) (t done : List Char) (pos : Nat) (values vs : List Value),
      Spans t.length pos refs →
      evalRefs ctx env refs = .ok vs →
      pgLoop ctx env refs (done ++ t.drop pos) values ((done.length : Int) - pos) =
        .ok (done ++ buildSqlFrom t pos (values.length + 1) refs, values ++ vs) := by
  intro refs
  induction refs with
  | nil =>
    intro t done pos values vs _ hev
    rw [evalRefs] at hev
    simp [pure, Except.pure] at hev
    subst hev
    rw [pgLoop, buildSqlFrom]
    simp
  | cons r rs ih =>
    intro t done pos values vs hspans hev
    cases hspans with
    | cons _ _ _ h1 h2 h3 htail =>
      rw [evalRefs] at hev
      cases hfr : evalRefValue r.inner ctx env with
      | error e => rw [hfr] at hev; simp [bind, Except.bind] at hev
      | ok v =>
        rw [hfr] at hev
        cases hrs : evalRefs ctx env rs with
        | error e =>
          rw [hrs] at hev
          simp [bind, Except.bind, pure, Except.pure] at hev
        | ok vs' =>
          rw [hrs] at hev
          simp [bind, Except.bind, pure, Except.pure] at hev
          rw [pgLoop, hfr]
          simp only [bind, Except.bind]
          have hidx1 : ((r.start : Int) + ((done.length : Int) - (pos : Int))).toNat =
              done.length + (r.start - pos) := by omega
          have hidx2 : ((r.stop : Int) + ((done.length : Int) - (pos : Int))).toNat =
              done.length + (r.stop - pos) := by omega
          rw [hidx1, hidx2, List.take_append, List.drop_append]
          have hdrop : (t.drop pos).drop (r.stop - pos) = t.drop r.stop := by
            rw [List.drop_drop]
            congr 1
            omega
          rw [hdrop]
          have hlen' : (values ++ [v]).length = values.length + 1 := by simp
          rw [hlen']
          have htake_len : ((t.drop pos).take (r.start - pos)).length = r.start - pos := by
            rw [List.length_take, List.length_drop]
            omega
          have hoff : ((done.length : Int) - pos) + (placeholderFor (values.length + 1)).length -
              ((r.stop : Int) - (r.start : Int)) =
              (((done ++ (t.drop pos).take (r.start - pos) ++
                placeholderFor (values.length + 1)).length : Int) - r.stop) := by
            simp only [List.length_append, htake_len]
            push_cast
            omega
          have hgoal := ih t (done ++ (t.drop pos).take (r.start - pos) ++
            placeholderFor (values.length + 1)) r.stop (values ++ [v]) vs' htail hrs
          rw [hlen'] at hgoal
          simp only [List.append_assoc] at hoff hgoal ⊢
          rw [hoff, hgoal, ← hev]
          simp [buildSqlFrom, List.append_assoc]

/-- C1.  `PgAdapter.interpolate` round-trip: for every string template and
every context/environment under which all located expressions evaluate (to
the list `vs`), the artifact's values array is exactly `vs` — the resolved
values in strict left-to-right template order, one per expression — and the
artifact's SQL text is exactly the template's non-expression text with the
`k`-th expression replaced by the positional placeholder `$k`
(`buildSqlFrom … 1 …`): a template whose scan finds `N` expressions yields
exactly the placeholders `$1..$N`, assigned left to right, and
`values.length = N`. -/
theorem pgInterpolate_roundtrip :
    ∀ (template : List Char) (ctx : Context) (env : Env) (vs : List Value),
      evalRefs ctx env (parseTemplate template) = .ok vs →
      pgInterpolate template ctx env =
        .ok { sql := buildSqlFrom template 0 1 (parseTemplate template), values := vs } ∧
      vs.length = (parseTemplate template).length := by
  intro template ctx env vs hev
  constructor
  · rw [pgInterpolate]
    have hspans : Spans template.length 0 (parseTemplate template) := by
      have := spans_parseAux template.length template 0 (le_refl _)
      simpa [parseTemplate] using this
    have h := pgLoop_spec ctx env (parseTemplate template) template [] 0 [] vs hspans hev
    simp only [List.nil_append, List.drop_zero, List.length_nil, Nat.cast_zero,
      Int.sub_zero, List.nil_append] at h
    norm_num at h
    rw [h]
    rfl
  · exact evalRefs_length ctx env _ _ hev

/-- The spec's round-trip scenario template:
`SELECT * FROM t WHERE id = ${{ path.id }} AND s =
${{ default(query.status, 'active') }}`. -/
def tmplScenario : List Char :=
  "SELECT * FROM t WHERE id = ".data ++
    '$' :: '{' :: '{' :: " path.id ".data ++ '}' :: '}' ::
    " AND s = ".data ++
    '$' :: '{' :: '{' :: " default(query.status, 'active') ".data ++ '}' :: '}' :: []

/-- The scenario context `{path: {id: "7"}, query: {}}`. -/
def ctxScenario : Context :=
  { path := vObj [("id".data, vStr "7".data)], query := vObj [],
    body := vUndefined, auth := vNull }

unseal parseAux findCloseAux evaluateFunctionF evalArgsListF evaluateArgF in
/-- C1 witness: the spec's scenario — the artifact is
`SELECT * FROM t WHERE id = $1 AND s = $2` with values `["7", "active"]`
in that order, one per expression. -/
theorem pgInterpolate_roundtrip_witness :
    pgInterpolate tmplScenario ctxScenario envNil =
      .ok { sql := "SELECT * FROM t WHERE id = $1 AND s = $2".data,
            values := [vStr "7".data, vStr "active".data] } ∧
    [vStr "7".data, vStr "active".data].length =
      (parseTemplate tmplScenario).length := by
  have h := pgInterpolate_roundtrip tmplScenario ctxScenario envNil
    [vStr "7".data, vStr "active".data] (by rfl)
  refine ⟨?_, h.2⟩
  rw [h.1]
  rfl

/-! ## C5 -/

/-- The string coercion the MongoDB adapter applies to a value spliced into
surrounding text: `String(value ?? "")`. -/
def coerceForSplice (v : Value) : List Char :=
  jsToString (nullishCoalesce v (vStr []))

/-- The string `MongoAdapter.interpolateString` assembles in the mixed
case: the template's text outside the reference spans with each reference
replaced by its coerced value. -/
def buildStrFrom (template : List Char) : Nat → List Ref → List (List Char) → List Char
  | pos, [], _ => template.drop pos
  | pos, r :: rs, reps =>
    (template.drop pos).take (r.start - pos) ++ reps.headD [] ++
      buildStrFrom template r.stop rs reps.tail

/-- The splice loop of `MongoAdapter.interpolateString`, characterized like
`pgLoop_spec`: over span-disciplined references whose evaluations succeed,
it produces the interleaving of the remaining text chunks with the coerced
values. -/
theorem mongoStrLoop_spec (ctx : Context) (env : Env) :
    ∀ (refs : List Ref) (t done : List Char) (pos : Nat) (vs : List Value),
      Spans t.length pos refs →
      evalRefs ctx env refs = .ok vs →
      mongoStrLoop ctx env refs (done ++ t.drop pos) ((done.length : Int) - pos) =
        .ok (done ++ buildStrFrom t pos refs (vs.map coerceForSplice)) := by
  intro refs
  induction refs with
  | nil =>
    intro t done pos vs _ hev
    rw [evalRefs] at hev
    simp [pure, Except.pure] at hev
    subst hev
    rw [mongoStrLoop, buildStrFrom]
  | cons r rs ih =>
    intro t done pos vs hspans hev
    cases hspans with
    | cons _ _ _ h1 h2 h3 htail =>
      rw [evalRefs] at hev
      cases hfr : evalRefValue r.inner ctx env with
      | error e => rw [hfr] at hev; simp [bind, Except.bind] at hev
      | ok v =>
        rw [hfr] at hev
        cases hrs : evalRefs ctx env rs with
        | error e =>
          rw [hrs] at hev
          simp [bind, Except.bind, pure, Except.pure] at hev
        | ok vs' =>
          rw [hrs] at hev
          simp [bind, Except.bind, pure, Except.pure] at hev
          rw [mongoStrLoop, hfr]
          simp only [bind, Except.bind]
          have hidx1 : ((r.start : Int) + ((done.length : Int) - (pos : Int))).toNat =
              done.length + (r.start - pos) := by omega
          have hidx2 : ((r.stop : Int) + ((done.length : Int) - (pos : Int))).toNat =
              done.length + (r.stop - pos) := by omega
          rw [hidx1, hidx2, List.take_append, List.drop_append]
          have hdrop : (t.drop pos).drop (r.stop - pos) = t.drop r.stop := by
            rw [List.drop_drop]
            congr 1
            omega
          rw [hdrop]
          have htake_len : ((t.drop pos).take (r.start - pos)).length = r.start - pos := by
            rw [List.length_take, List.length_drop]
            omega
          have hoff : ((done.length : Int) - pos) +
              (jsToString (nullishCoalesce v (vStr []))).length -
              ((r.stop : Int) - (r.start : Int)) =
              (((done ++ (t.drop pos).take (r.start - pos) ++
                jsToString (nullishCoalesce v (vStr []))).length : Int) - r.stop) := by
            simp only [List.length_append, htake_len]
            push_cast
            omega
          have hgoal := ih t (done ++ (t.drop pos).take (r.start - pos) ++
            jsToString (nullishCoalesce v (vStr []))) r.stop vs' htail hrs
          simp only [List.append_assoc] at hoff hgoal ⊢
          rw [hoff, hgoal, ← hev]
          simp [buildStrFrom, coerceForSplice, List.append_assoc]

/-- C5.  The type rules of `MongoAdapter.interpolateString` on a string
leaf of the query object:
(no references) the string is returned unchanged;
(whole-leaf) when the scan finds exactly one expression spanning the entire
string, the resolved value is returned directly, its native type (number,
null, date, array, object, …) preserved;
(embedded) when expressions are embedded in surrounding text (more than one
reference, or one not spanning the whole string), every resolved value is
coerced to its string form (`String(value ?? "")`) and spliced into the
text, yielding a string. -/
theorem mongoInterpolateString_type_rules :
    (∀ (template : List Char) (ctx : Context) (env : Env),
      parseTemplate template = [] →
      mongoInterpolateString template ctx env = .ok (vStr template)) ∧
    (∀ (template : List Char) (ctx : Context) (env : Env) (r : Ref) (v : Value),
      parseTemplate template = [r] → r.start = 0 → r.stop = template.length →
      evalRefValue r.inner ctx env = .ok v →
      mongoInterpolateString template ctx env = .ok v) ∧
    (∀ (template : List Char) (ctx : Context) (env : Env) (r0 : Ref)
      (rest : List Ref) (vs : List Value),
      parseTemplate template = r0 :: rest →
      ¬(rest = [] ∧ r0.start = 0 ∧ r0.stop = template.length) →
      evalRefs ctx env (r0 :: rest) = .ok vs →
      mongoInterpolateString template ctx env =
        .ok (vStr (buildStrFrom template 0 (r0 :: rest) (vs.map coerceForSplice)))) := by
  refine ⟨?_, ?_, ?_⟩
  · intro template ctx env hparse
    rw [mongoInterpolateString, hparse]
  · intro template ctx env r v hparse h0 hlen hev
    rw [mongoInterpolateString, hparse]
    simp only [List.isEmpty_nil, h0, hlen]
    simp [hev]
  · intro template ctx env r0 rest vs hparse hne hev
    rw [mongoInterpolateString]
    simp only [hparse]
    rw [if_neg (by simpa [List.isEmpty_iff] using hne)]
    have hspans : Spans template.length 0 (r0 :: rest) := by
      have := spans_parseAux template.length template 0 (le_refl _)
      rw [parseTemplate] at hparse
      rw [hparse] at this
      simpa using this
    have h := mongoStrLoop_spec ctx env (r0 :: rest) template [] 0 vs hspans hev
    simp only [List.nil_append, List.drop_zero, List.length_nil, Nat.cast_zero,
      Int.sub_zero] at h
    norm_num at h
    rw [h]
    rfl

/-- A context whose body is `{n: 42}`. -/
def ctxNum : Context :=
  { path := vObj [], query := vObj [], body := vObj [("n".data, vNum 42)],
    auth := vNull }

unseal parseAux findCloseAux in
/-- C5 witness: the whole-leaf string `"${{ body.n }}"` resolves to the
number `42` with its type preserved, while the embedded `"x-${{ body.n }}"`
resolves to the string `"x-42"`. -/
theorem mongoInterpolateString_type_rules_witness :
    mongoInterpolateString ('$' :: '{' :: '{' :: " body.n ".data ++ '}' :: '}' :: [])
      ctxNum envNil = .ok (vNum 42) ∧
    mongoInterpolateString ('x' :: '-' :: '$' :: '{' :: '{' :: " body.n ".data ++ '}' :: '}' :: [])
      ctxNum envNil = .ok (vStr "x-42".data) := by
  constructor
  · exact mongoInterpolateString_type_rules.2.1
      ('$' :: '{' :: '{' :: " body.n ".data ++ '}' :: '}' :: []) ctxNum envNil
      { matchText := '$' :: '{' :: '{' :: " body.n ".data ++ '}' :: '}' :: [],
        inner := "body.n".data, start := 0, stop := 13 }
      (vNum 42) (by rfl) (by rfl) (by rfl) (by rfl)
  · have h := mongoInterpolateString_type_rules.2.2
      ('x' :: '-' :: '$' :: '{' :: '{' :: " body.n ".data ++ '}' :: '}' :: []) ctxNum envNil
      { matchText := '$' :: '{' :: '{' :: " body.n ".data ++ '}' :: '}' :: [],
        inner := "body.n".data, start := 2, stop := 15 }
      [] [vNum 42] (by rfl) (by simp) (by rfl)
    rw [h]
    rfl

end OpenapiDb
